import Mathlib

/-!
Cloak client: Firefox ClientHello composer, session bootstrap, connection handler.

A shallow embedding of `internal/client/firefox.go` and `cmd/ck-client/ck-client.go`.

* Byte slices are `List Byte`; a byte is a natural number (the code only moves bytes
  around, the two places where a value is narrowed to a byte or to a `uint16` carry an
  explicit `%`).
* A Go run-time panic is the `none` of an `Option`.
* The bytes delivered by `common.CryptoRandRead` are an input: a stream `Nat → Byte`.
* The goroutines of `makeSession` are a transition system driven by an explicit schedule.
-/

namespace Cloak

/-- A byte of a Go `[]byte`. -/
abbrev Byte := Nat

/-! ## Go primitives used by the source -/

/-- Go `make([]byte, n)` for a run-time `int` length: a negative length panics. -/
def makeBytes (n : Int) : Option (List Byte) :=
  if n < 0 then none else some (List.replicate n.toNat 0)

/-- Go conversion `uint16(n)` of a non-negative `int`. -/
def uint16 (n : Nat) : Nat := n % 65536

/-- Go `binary.BigEndian.PutUint16(b, v)`: `b[0] = byte(v >> 8)`, `b[1] = byte(v)`. -/
def putUint16 (b : List Byte) (v : Nat) : List Byte :=
  (b.set 0 (v / 256 % 256)).set 1 (v % 256)

/-- Go `copy(dst[lo:hi], src)`: copies `min (hi - lo) (len src)` bytes to offset `lo`. -/
def copyInto (dst : List Byte) (lo hi : Nat) (src : List Byte) : List Byte :=
  dst.take lo ++ src.take (min (hi - lo) src.length) ++ dst.drop (lo + min (hi - lo) src.length)

/-- Value of one hexadecimal digit (`encoding/hex`). -/
def hexDigit (c : Char) : Nat :=
  if c.toNat < 58 then c.toNat - 48 else c.toNat - 87

/-- Decoding of a string of lower-case hexadecimal digit pairs. -/
def hexPairs : List Char → List Byte
  | a :: b :: rest => (hexDigit a * 16 + hexDigit b) :: hexPairs rest
  | _ => []

/-- Go `hex.DecodeString` on the well-formed lower-case literals of the source
(the source discards the error result). -/
def hexDecodeString (s : String) : List Byte := hexPairs s.toList

/-- Modelled from the spec: `common.CryptoRandRead(dst[lo:hi])` is outside the given
sources; it overwrites the whole slice with bytes of the secure random source, here the
stream `rnd`. -/
def cryptoRandRead (dst : List Byte) (lo hi : Nat) (rnd : Nat → Byte) : List Byte :=
  dst.take lo ++ (List.range (hi - lo)).map rnd ++ dst.drop hi

/-- Modelled from the spec: `addExtRec(typ, data)` is outside the given sources; it is
`typ ++ 2-byte big-endian len(data) ++ data`. -/
def addExtRec (typ data : List Byte) : List Byte :=
  typ ++ putUint16 [0, 0] (uint16 data.length) ++ data

/-- Modelled from the spec: `generateSNI(name)` is outside the given sources; it is
`2-byte (len+3) ++ 0x00 ++ 2-byte len ++ name`. -/
def generateSNI (serverName : List Byte) : List Byte :=
  putUint16 [0, 0] (uint16 (serverName.length + 3)) ++ [0x00]
    ++ putUint16 [0, 0] (uint16 serverName.length) ++ serverName

/-! ## `internal/client/firefox.go` -/

namespace Firefox

/-- The closure `composeKeyShare` of `composeExtensions`. -/
def composeKeyShare (hidden : List Byte) (rnd : Nat → Byte) : List Byte :=
  let ret : List Byte := List.replicate 107 0
  let ret := (ret.set 0 0x00).set 1 0x69
  let ret := (ret.set 2 0x00).set 3 0x1d
  let ret := (ret.set 4 0x00).set 5 0x20
  let ret := copyInto ret 6 38 hidden
  let ret := (ret.set 38 0x00).set 39 0x17
  let ret := (ret.set 40 0x00).set 41 0x41
  cryptoRandRead ret 42 107 rnd

/-- The array `ext` of `composeExtensions` once all fifteen entries are assigned;
`none` when `make([]byte, 159-len(ext[0]))` panics. -/
def composeExtensionsExt (serverName keyShare : List Byte) (rnd : Nat → Byte) :
    Option (List (List Byte)) := do
  let ext0 := addExtRec [0x00, 0x00] (generateSNI serverName)
  let ext1 := addExtRec [0x00, 0x17] []
  let ext2 := addExtRec [0xff, 0x01] [0x00]
  let suppGroup := hexDecodeString "000c001d00170018001901000101"
  let ext3 := addExtRec [0x00, 0x0a] suppGroup
  let ext4 := addExtRec [0x00, 0x0b] [0x01, 0x00]
  let ext5 := addExtRec [0x00, 0x23] []
  let ALPN := hexDecodeString "000c02683208687474702f312e31"
  let ext6 := addExtRec [0x00, 0x10] ALPN
  let ext7 := addExtRec [0x00, 0x05] [0x01, 0x00, 0x00, 0x00, 0x00]
  let delegatedCredentials := hexDecodeString "00080403050306030203"
  let ext8 := addExtRec [0x00, 0x22] delegatedCredentials
  let ext9 := addExtRec [0x00, 0x33] (composeKeyShare keyShare rnd)
  let suppVersions := hexDecodeString "0403040303"
  let ext10 := addExtRec [0x00, 0x2b] suppVersions
  let sigAlgo := hexDecodeString "001604030503060308040805080604010501060102030201"
  let ext11 := addExtRec [0x00, 0x0d] sigAlgo
  let ext12 := addExtRec [0x00, 0x2d] [0x01, 0x01]
  let ext13 := addExtRec [0x00, 0x1c] [0x40, 0x01]
  let padding ← makeBytes (159 - (ext0.length : Int))
  let ext14 := addExtRec [0x00, 0x15] padding
  pure [ext0, ext1, ext2, ext3, ext4, ext5, ext6, ext7, ext8, ext9, ext10, ext11, ext12,
    ext13, ext14]

/-- The loop `for _, e := range ... { ret = append(ret, e...) }`. -/
def appendAll (parts : List (List Byte)) : List Byte :=
  parts.foldl (fun ret e => ret ++ e) []

/-- The method `(*Firefox).composeExtensions`. -/
def composeExtensions (serverName keyShare : List Byte) (rnd : Nat → Byte) :
    Option (List Byte) :=
  (composeExtensionsExt serverName keyShare rnd).map appendAll

/-- The struct `clientHelloFields` (declared outside the given sources), with the four
fields `composeClientHello` reads. -/
structure clientHelloFields where
  random : List Byte
  sessionId : List Byte
  x25519KeyShare : List Byte
  serverName : List Byte

/-- The method `(*Firefox).composeClientHello`. -/
def composeClientHello (hd : clientHelloFields) (rnd : Nat → Byte) : Option (List Byte) := do
  let c0 : List Byte := [0x01]
  let c1 : List Byte := [0x00, 0x01, 0xfc]
  let c2 : List Byte := [0x03, 0x03]
  let c3 := hd.random
  let c4 : List Byte := [0x20]
  let c5 := hd.sessionId
  let c6 : List Byte := [0x00, 0x22]
  let cipherSuites :=
    hexDecodeString "130113031302c02bc02fcca9cca8c02cc030c00ac009c013c014009c009d002f0035"
  let c7 := cipherSuites
  let c8 : List Byte := [0x01]
  let c9 : List Byte := [0x00]
  let c11 ← composeExtensions hd.serverName hd.x25519KeyShare rnd
  let c10 : List Byte := [0x00, 0x00]
  let c10 := putUint16 c10 (uint16 c11.length)
  pure (appendAll [c0, c1, c2, c3, c4, c5, c6, c7, c8, c9, c10, c11])

/-! ### Layout vocabulary for the statements about `firefox.go` -/

/-- The buffer `ret` of `composeKeyShare` just before the random filler is written. -/
def keyShareBuf (hidden : List Byte) : List Byte :=
  let ret : List Byte := List.replicate 107 0
  let ret := (ret.set 0 0x00).set 1 0x69
  let ret := (ret.set 2 0x00).set 3 0x1d
  let ret := (ret.set 4 0x00).set 5 0x20
  let ret := copyInto ret 6 38 hidden
  let ret := (ret.set 38 0x00).set 39 0x17
  (ret.set 40 0x00).set 41 0x41

/-- The fifteen entries of `ext` when the padding allocation succeeds. -/
def extRecords (serverName keyShare : List Byte) (rnd : Nat → Byte) : List (List Byte) :=
  [addExtRec [0x00, 0x00] (generateSNI serverName),
   addExtRec [0x00, 0x17] [],
   addExtRec [0xff, 0x01] [0x00],
   addExtRec [0x00, 0x0a] (hexDecodeString "000c001d00170018001901000101"),
   addExtRec [0x00, 0x0b] [0x01, 0x00],
   addExtRec [0x00, 0x23] [],
   addExtRec [0x00, 0x10] (hexDecodeString "000c02683208687474702f312e31"),
   addExtRec [0x00, 0x05] [0x01, 0x00, 0x00, 0x00, 0x00],
   addExtRec [0x00, 0x22] (hexDecodeString "00080403050306030203"),
   addExtRec [0x00, 0x33] (composeKeyShare keyShare rnd),
   addExtRec [0x00, 0x2b] (hexDecodeString "0403040303"),
   addExtRec [0x00, 0x0d] (hexDecodeString "001604030503060308040805080604010501060102030201"),
   addExtRec [0x00, 0x2d] [0x01, 0x01],
   addExtRec [0x00, 0x1c] [0x40, 0x01],
   addExtRec [0x00, 0x15] (List.replicate (150 - serverName.length) 0)]

/-- Bytes of the extensions blob in front of the key-share record (`ext[0]..ext[8]`). -/
def extsBeforeKeyShare (serverName : List Byte) : List Byte :=
  appendAll ((extRecords serverName [] (fun _ => 0)).take 9)

/-- Bytes of the extensions blob behind the key-share record (`ext[10]..ext[14]`). -/
def extsAfterKeyShare (serverName : List Byte) : List Byte :=
  appendAll ((extRecords serverName [] (fun _ => 0)).drop 10)

/-- Bytes of the ClientHello in front of the extensions blob (`clientHello[0..10]`),
with the extensions length field holding 401 = 0x0191. -/
def helloHeader (hd : clientHelloFields) : List Byte :=
  [0x01] ++ [0x00, 0x01, 0xfc] ++ [0x03, 0x03] ++ hd.random ++ [0x20] ++ hd.sessionId
    ++ [0x00, 0x22]
    ++ hexDecodeString "130113031302c02bc02fcca9cca8c02cc030c00ac009c013c014009c009d002f0035"
    ++ [0x01] ++ [0x00] ++ [0x01, 0x91]

/-- Everything of the ClientHello in front of the random filler. -/
def helloBeforeFiller (hd : clientHelloFields) : List Byte :=
  helloHeader hd ++ extsBeforeKeyShare hd.serverName ++ [0x00, 0x33, 0x00, 0x6b]
    ++ (keyShareBuf hd.x25519KeyShare).take 42

/-- A record as a peer reads it: 2-byte type, 2-byte big-endian length, data. -/
structure ExtRecord where
  typ : List Byte
  data : List Byte
deriving DecidableEq, Repr

/-- Reads one type-length-value record from the front of `bs`. -/
def parseRecord (bs : List Byte) : Option (ExtRecord × List Byte) :=
  match bs with
  | t0 :: t1 :: l0 :: l1 :: rest =>
    if l0 * 256 + l1 ≤ rest.length then
      some (⟨[t0, t1], rest.take (l0 * 256 + l1)⟩, rest.drop (l0 * 256 + l1))
    else none
  | _ => none

/-- Reads records until the input is used up; `none` when bytes are left over that do
not form a record. Every record uses at least four bytes, so `fuel = len bs` suffices. -/
def parseRecords : Nat → List Byte → Option (List ExtRecord)
  | _, [] => some []
  | 0, _ :: _ => none
  | fuel + 1, b :: bs =>
    match parseRecord (b :: bs) with
    | none => none
    | some (r, rest) => (parseRecords fuel rest).map (fun rs => r :: rs)

/-- Parses a whole extensions blob into its records. -/
def parseExtensions (bs : List Byte) : Option (List ExtRecord) := parseRecords bs.length bs

end Firefox

/-! ## `cmd/ck-client/ck-client.go`: `makeSession`

The `sta.NumConn` goroutines started by `makeSession` ("lanes") are modelled as a transition
system: a lane is a program counter plus the number of failed passes through `makeconn:`,
and one scheduled step of a lane runs it up to its next operation on the network or on
shared memory. The state `spawned` is the one right after the spawn loop: `wg.Add(1)` ran
once per lane (lane steps taken during the loop commute with the remaining `wg.Add`, and
`wg.Wait()` is only reached after the loop). A schedule is the list of lane indices in the
order in which the lanes take their steps, so quantifying over schedules quantifies over all
interleavings. The network is an input: `net i k` is what happens to the `k`-th pass of
lane `i` through `makeconn:`. -/

/-- A session key as returned by `client.PrepareConnection`. -/
abbrev Key := List Byte

/-- The fields of `client.State` that `makeSession` reads or writes and that matter for
the result (the remote address only selects the dial target). -/
structure State where
  SessionID : Nat
  NumConn : Int
  EncryptionMethod : Byte

/-- What the network does to one pass of a lane through `makeconn:`. -/
inductive Attempt where
  /-- The call `d.Dial` returns an error. -/
  | dialFail
  /-- The call `d.Dial` succeeds and `client.PrepareConnection` returns an error. -/
  | prepareFail
  /-- The call `d.Dial` succeeds and `client.PrepareConnection` returns the key `sk`. -/
  | ok (sk : Key)
deriving DecidableEq, Repr

/-- A connection returned by `d.Dial`: the one dialled by lane `lane` in its pass number
`attempt`. -/
structure Conn where
  lane : Nat
  attempt : Nat
deriving DecidableEq, Repr

/-- Program counter of a lane goroutine. -/
inductive LanePc where
  /-- At label `makeconn:`, about to call `d.Dial`. -/
  | makeconn
  /-- Holding `remoteConn`, about to call `client.PrepareConnection`. -/
  | prepare
  /-- About to run `_sessionKey.Store(sk)`. -/
  | store (sk : Key)
  /-- About to run `connsCh <- remoteConn`. -/
  | send
  /-- About to run `wg.Done()`. -/
  | wgDone
  /-- The goroutine has ended. -/
  | finished
deriving DecidableEq, Repr

/-- Local state of a lane: program counter and number of failed passes so far. -/
structure Lane where
  pc : LanePc
  tries : Nat

/-- Shared state of `makeSession` while the lanes run. -/
structure Sys where
  /-- The lane goroutines. -/
  lanes : Nat → Lane
  /-- The variable `_sessionKey` (`atomic.Value`): `none` until the first `Store`. -/
  sessionKey : Option Key
  /-- The buffered channel `connsCh`, oldest element first. -/
  connsCh : List Conn
  /-- The counter of the wait group `wg`. -/
  wg : Int
  /-- The connections on which `remoteConn.Close()` was called. -/
  closed : List Conn
  /-- History of the `_sessionKey.Store` calls, oldest first: lane and key. It is only
  written, never read by the program. -/
  storeLog : List (Nat × Key)

/-- Replaces the local state of lane `i`. -/
def setLane (s : Sys) (i : Nat) (l : Lane) : Sys :=
  { s with lanes := Function.update s.lanes i l }

/-- One step of the goroutine body of lane `i`; `cap` is the capacity of `connsCh`. -/
def stepLane (net : Nat → Nat → Attempt) (cap : Nat) (i : Nat) (s : Sys) : Sys :=
  match (s.lanes i).pc with
  | .makeconn =>
    match net i (s.lanes i).tries with
    | .dialFail => setLane s i ⟨.makeconn, (s.lanes i).tries + 1⟩
    | _ => setLane s i ⟨.prepare, (s.lanes i).tries⟩
  | .prepare =>
    match net i (s.lanes i).tries with
    | .ok sk => setLane s i ⟨.store sk, (s.lanes i).tries⟩
    | _ =>
      setLane { s with closed := s.closed ++ [⟨i, (s.lanes i).tries⟩] } i
        ⟨.makeconn, (s.lanes i).tries + 1⟩
  | .store sk =>
    setLane { s with sessionKey := some sk, storeLog := s.storeLog ++ [(i, sk)] } i
      ⟨.send, (s.lanes i).tries⟩
  | .send =>
    if s.connsCh.length < cap then
      setLane { s with connsCh := s.connsCh ++ [⟨i, (s.lanes i).tries⟩] } i
        ⟨.wgDone, (s.lanes i).tries⟩
    else s
  | .wgDone => setLane { s with wg := s.wg - 1 } i ⟨.finished, (s.lanes i).tries⟩
  | .finished => s

/-- The scheduler lets lane `i` take a step; there are only the lanes `0 .. n-1`. -/
def step (net : Nat → Nat → Attempt) (n : Nat) (s : Sys) (i : Nat) : Sys :=
  if i < n then stepLane net n i s else s

/-- State right after the spawn loop `for i := 0; i < sta.NumConn; i++`. -/
def spawned (n : Nat) : Sys :=
  { lanes := fun _ => ⟨.makeconn, 0⟩, sessionKey := none, connsCh := [], wg := n, closed := [],
    storeLog := [] }

/-- The lanes run under the schedule `sched`. -/
def runLanes (net : Nat → Nat → Attempt) (n : Nat) (sched : List Nat) : Sys :=
  sched.foldl (step net n) (spawned n)

/-- The loop `for i := 0; i < sta.NumConn; i++ { conn := <-connsCh; sesh.AddConnection(conn) }`
run when no lane is left to send: the arguments of the `AddConnection` calls in order, or
`none` when a receive finds the channel empty (it then waits forever). -/
def recvLoop : Nat → List Conn → List Conn → Option (List Conn)
  | 0, _, added => some added
  | _ + 1, [], _ => none
  | n + 1, conn :: ch, added => recvLoop n ch (added ++ [conn])

/-- Go `binary.BigEndian.Uint32(quad)`. -/
def bigEndianUint32 (quad : List Byte) : Nat :=
  quad.getD 3 0 + quad.getD 2 0 * 2 ^ 8 + quad.getD 1 0 * 2 ^ 16 + quad.getD 0 0 * 2 ^ 24

/-- A `mux.Session` as `makeSession` leaves it: the identifier and the obfuscator it was
made with (`Valve: nil`, `UnitRead: util.ReadTLS` are constants) and the arguments of the
`AddConnection` calls, first call first. -/
structure Session (Obfs : Type) where
  id : Nat
  obfuscator : Obfs
  conns : List Conn
deriving DecidableEq, Repr

/-- How a run of `makeSession` stands once the schedule is used up. -/
inductive Outcome (Obfs : Type) where
  /-- It has not returned: `wg.Wait()` or a channel receive is waiting. -/
  | blocked
  /-- A run-time panic (`make(chan net.Conn, n)` with `n < 0` or with `n` above the
  capacity the runtime accepts, or the type assertion `_sessionKey.Load().([]byte)` on the
  nil interface of a never stored value). -/
  | panicked
  /-- The call `mux.GenerateObfs(sta.EncryptionMethod, obfsKey)` returned an error and
  `log.Fatal` ended the process. -/
  | fatal (obfsKey : Key)
  /-- It returned `sesh`, having passed `obfsKey` to `mux.GenerateObfs`. -/
  | returned (obfsKey : Key) (sesh : Session Obfs)
deriving DecidableEq, Repr

/-- An instance of the capacity bound of `make(chan net.Conn, n)`: the Go runtime on a
64-bit platform refuses a channel buffer of more than `2^48 - 96` bytes, and a `net.Conn`
takes 16 bytes. -/
def maxChanCap64 : Nat := (2 ^ 48 - 96) / 16

/-- The function `makeSession(sta, isAdmin)`. Inputs besides the arguments: `maxChanCap`,
the largest capacity for which `make(chan net.Conn, n)` returns a channel on the platform
at hand (a constant of the Go runtime: the call panics with `makechan: size out of range`
for a negative `n` and for an `n` above it); `quad`, the four bytes `rand.Read` delivers;
`net`, the network; `generateObfs`, the collaborator `mux.GenerateObfs` (`none` for an
error); `sched`, the schedule of the lanes. The counter `wg` never drops below zero
(invariant `wg_count`), so `wg.Done()` cannot panic. -/
def makeSession {Obfs : Type} (maxChanCap : Nat) (sta : State) (isAdmin : Bool)
    (quad : List Byte) (net : Nat → Nat → Attempt) (generateObfs : Byte → Key → Option Obfs)
    (sched : List Nat) : Outcome Obfs :=
  let sessionID := if !isAdmin then bigEndianUint32 quad else sta.SessionID
  if sta.NumConn < 0 then .panicked
  else if (maxChanCap : Int) < sta.NumConn then .panicked
  else
    let s := runLanes net sta.NumConn.toNat sched
    if s.wg ≠ 0 then .blocked
    else
      match s.sessionKey with
      | none => .panicked
      | some sessionKey =>
        match generateObfs sta.EncryptionMethod sessionKey with
        | none => .fatal sessionKey
        | some obfuscator =>
          match recvLoop sta.NumConn.toNat s.connsCh [] with
          | none => .blocked
          | some conns => .returned sessionKey ⟨sessionID, obfuscator, conns⟩

/-- Lane `i` derives the key `sk`: its first pass through `makeconn:` that does not fail
is pass `k`, and `client.PrepareConnection` returns `sk` there. -/
def derivesKey (net : Nat → Nat → Attempt) (i : Nat) (k : Nat) (sk : Key) : Prop :=
  net i k = .ok sk ∧ ∀ j, j < k → ∀ sk', net i j ≠ .ok sk'

/-! ### Vocabulary for the statements about `makeSession` -/

/-- The key a run passed to `mux.GenerateObfs`, if it got that far. -/
def Outcome.obfsKey {Obfs : Type} : Outcome Obfs → Option Key
  | .fatal k => some k
  | .returned k _ => some k
  | _ => none

/-- The lane has sent its connection on `connsCh`. -/
def LanePc.sent (pc : LanePc) : Prop := pc = .wgDone ∨ pc = .finished

/-- The lane has stored its key in `_sessionKey`. -/
def LanePc.stored (pc : LanePc) : Prop := pc = .send ∨ pc = .wgDone ∨ pc = .finished

/-- Number of lanes among `0 .. n-1` that have not ended. -/
def pending (lanes : Nat → Lane) (n : Nat) : Nat :=
  ∑ j in Finset.range n, if (lanes j).pc = .finished then 0 else 1

/-- Invariant of the lane system. -/
structure Inv (net : Nat → Nat → Attempt) (n : Nat) (s : Sys) : Prop where
  ch_lane : ∀ c, c ∈ s.connsCh →
    c.lane < n ∧ (s.lanes c.lane).pc.sent ∧ c.attempt = (s.lanes c.lane).tries
  ch_nodup : (s.connsCh.map Conn.lane).Nodup
  ch_has : ∀ i, i < n → (s.lanes i).pc.sent →
    (⟨i, (s.lanes i).tries⟩ : Conn) ∈ s.connsCh
  live_store : ∀ i, i < n → ∀ sk, (s.lanes i).pc = .store sk →
    net i (s.lanes i).tries = .ok sk
  live : ∀ i, i < n → (s.lanes i).pc.stored → ∃ sk, net i (s.lanes i).tries = .ok sk
  first : ∀ i, i < n → ∀ j, j < (s.lanes i).tries → ∀ sk, net i j ≠ .ok sk
  dialled : ∀ i, i < n → (s.lanes i).pc = .prepare → net i (s.lanes i).tries ≠ .dialFail
  wg_count : s.wg = ((pending s.lanes n : Nat) : Int)
  key_from : ∀ k, s.sessionKey = some k →
    ∃ i, i < n ∧ (s.lanes i).pc.stored ∧ net i (s.lanes i).tries = .ok k
  key_some : ∀ i, i < n → (s.lanes i).pc.stored → s.sessionKey ≠ none
  closed_failed : ∀ c, c ∈ s.closed → net c.lane c.attempt = .prepareFail
  key_last : s.sessionKey = s.storeLog.getLast?.map Prod.snd

/-- Steps a lane still needs at most: five per pass up to pass `a`, counted down by the
program counter. -/
def stepsLeft (a : Nat) (l : Lane) : Nat :=
  5 * (a - l.tries) +
    match l.pc with
    | .makeconn => 5
    | .prepare => 4
    | .store _ => 3
    | .send => 2
    | .wgDone => 1
    | .finished => 0

/-! ## `cmd/ck-client/ck-client.go`: the connection handler of `main` -/

/-- A Go `error` value of a collaborator. -/
inductive GoError where
  | EOF
  | other (msg : String)
deriving DecidableEq, Repr

/-- Results of the collaborators of one handler run. -/
structure HandlerEnv where
  /-- The `i` returned by `io.ReadAtLeast(localConn, data, 1)`. -/
  readN : Nat
  /-- The `err` returned by `io.ReadAtLeast(localConn, data, 1)`. -/
  readErr : Option GoError
  /-- The buffer `data` after the read. -/
  data : List Byte
  /-- The `err` returned by `sesh.OpenStream()`. -/
  openErr : Option GoError
  /-- The `err` returned by `stream.Write(data[:i])`. -/
  writeErr : Option GoError

/-- The operations a handler run performs on its collaborators. -/
inductive Event where
  | readAtLeast
  | localClose
  | openStream
  | streamWrite (bytes : List Byte)
  | streamClose
  /-- The statement `go util.Pipe(localConn, stream)`. -/
  | goPipeLocalToStream
  /-- The call `util.Pipe(stream, localConn)`. -/
  | pipeStreamToLocal
deriving DecidableEq, Repr

/-- The events that operate on the session or on one of its streams. -/
def Event.onSession : Event → Bool
  | .openStream => true
  | .streamWrite _ => true
  | .streamClose => true
  | .goPipeLocalToStream => true
  | .pipeStreamToLocal => true
  | _ => false

/-- The events that start a relay direction. -/
def Event.isRelay : Event → Bool
  | .goPipeLocalToStream => true
  | .pipeStreamToLocal => true
  | _ => false

/-- The goroutine `go func() { ... }()` of the accept loop of `main`: its operations in
program order. -/
def handler (env : HandlerEnv) : List Event :=
  let t := [Event.readAtLeast]
  match env.readErr with
  | some _ => t ++ [.localClose]
  | none =>
    let t := t ++ [.openStream]
    match env.openErr with
    | some _ => t ++ [.localClose]
    | none =>
      let t := t ++ [.streamWrite (env.data.take env.readN)]
      match env.writeErr with
      | some _ => t ++ [.localClose, .streamClose]
      | none => t ++ [.goPipeLocalToStream, .pipeStreamToLocal]

end Cloak

/-! ## Theorems -/

namespace Cloak
namespace Firefox

/-! ## Helper lemmas for `firefox.go` -/

theorem putUint16_zero (v : Nat) : putUint16 [0, 0] v = [v / 256 % 256, v % 256] := rfl

theorem addExtRec_eq (typ data : List Byte) :
    addExtRec typ data
      = typ ++ [uint16 data.length / 256 % 256, uint16 data.length % 256] ++ data := rfl

theorem addExtRec_length (typ data : List Byte) :
    (addExtRec typ data).length = typ.length + 2 + data.length := by
  simp [addExtRec_eq]; omega

theorem generateSNI_length (serverName : List Byte) :
    (generateSNI serverName).length = 5 + serverName.length := by
  simp [generateSNI, putUint16_zero]; omega

theorem appendAll_eq_flatten (parts : List (List Byte)) : appendAll parts = parts.flatten := by
  have h : ∀ (acc : List Byte) (ps : List (List Byte)),
      ps.foldl (fun ret e => ret ++ e) acc = acc ++ ps.flatten := by
    intro acc ps
    induction ps generalizing acc with
    | nil => simp
    | cons p ps ih => simp [ih]
  simpa [appendAll] using h [] parts

theorem hex_suppGroup : hexDecodeString "000c001d00170018001901000101"
    = [0x00, 0x0c, 0x00, 0x1d, 0x00, 0x17, 0x00, 0x18, 0x00, 0x19, 0x01, 0x00, 0x01, 0x01] := by
  rfl

theorem hex_ALPN : hexDecodeString "000c02683208687474702f312e31"
    = [0x00, 0x0c, 0x02, 0x68, 0x32, 0x08, 0x68, 0x74, 0x74, 0x70, 0x2f, 0x31, 0x2e, 0x31] := by
  rfl

theorem hex_delegatedCredentials : hexDecodeString "00080403050306030203"
    = [0x00, 0x08, 0x04, 0x03, 0x05, 0x03, 0x06, 0x03, 0x02, 0x03] := by
  rfl

theorem hex_suppVersions : hexDecodeString "0403040303" = [0x04, 0x03, 0x04, 0x03, 0x03] := by
  rfl

theorem hex_sigAlgo : hexDecodeString "001604030503060308040805080604010501060102030201"
    = [0x00, 0x16, 0x04, 0x03, 0x05, 0x03, 0x06, 0x03, 0x08, 0x04, 0x08, 0x05, 0x08, 0x06,
       0x04, 0x01, 0x05, 0x01, 0x06, 0x01, 0x02, 0x03, 0x02, 0x01] := by
  rfl

theorem hex_cipherSuites :
    hexDecodeString "130113031302c02bc02fcca9cca8c02cc030c00ac009c013c014009c009d002f0035"
    = [0x13, 0x01, 0x13, 0x03, 0x13, 0x02, 0xc0, 0x2b, 0xc0, 0x2f, 0xcc, 0xa9, 0xcc, 0xa8,
       0xc0, 0x2c, 0xc0, 0x30, 0xc0, 0x0a, 0xc0, 0x09, 0xc0, 0x13, 0xc0, 0x14, 0x00, 0x9c,
       0x00, 0x9d, 0x00, 0x2f, 0x00, 0x35] := by
  rfl

theorem composeKeyShare_eq_rand (hidden : List Byte) (rnd : Nat → Byte) :
    composeKeyShare hidden rnd = cryptoRandRead (keyShareBuf hidden) 42 107 rnd := rfl

theorem keyShareBuf_length (hidden : List Byte) : (keyShareBuf hidden).length = 107 := by
  simp [keyShareBuf, copyInto]
  omega

theorem composeKeyShare_split (hidden : List Byte) (rnd : Nat → Byte) :
    composeKeyShare hidden rnd = (keyShareBuf hidden).take 42 ++ (List.range 65).map rnd := by
  rw [composeKeyShare_eq_rand, cryptoRandRead]
  have h : (keyShareBuf hidden).drop 107 = [] := by
    apply List.drop_of_length_le
    rw [keyShareBuf_length]
  rw [h]
  simp

theorem composeKeyShare_length (hidden : List Byte) (rnd : Nat → Byte) :
    (composeKeyShare hidden rnd).length = 107 := by
  rw [composeKeyShare_split]
  simp [keyShareBuf_length]

theorem keyShareBuf_head (hidden : List Byte) (h : hidden.length = 32) :
    (keyShareBuf hidden).take 42
      = [0x00, 0x69, 0x00, 0x1d, 0x00, 0x20] ++ hidden ++ [0x00, 0x17, 0x00, 0x41] := by
  have hbase : (((((((List.replicate 107 0 : List Byte).set 0 0x00).set 1 0x69).set 2 0x00).set 3
      0x1d).set 4 0x00).set 5 0x20)
      = [0x00, 0x69, 0x00, 0x1d, 0x00, 0x20] ++ ([0, 0, 0, 0] ++ List.replicate 97 0) := by
    decide
  simp only [keyShareBuf, copyInto, hbase]
  have h1 : min (38 - 6) hidden.length = 32 := by omega
  rw [h1]
  have h2 : List.take 32 hidden = hidden := List.take_of_length_le (by omega)
  rw [h2]
  have h3 : List.take 6
      ([0, 105, 0, 29, 0, 32] ++ ([0, 0, 0, 0] ++ List.replicate 97 0) : List Byte)
      = [0, 105, 0, 29, 0, 32] := by decide
  have h4 : List.drop (6 + 32)
      ([0, 105, 0, 29, 0, 32] ++ ([0, 0, 0, 0] ++ List.replicate 97 0) : List Byte)
      = [0, 0, 0, 0] ++ List.replicate 65 0 := by decide
  rw [h3, h4]
  simp [List.set_append, h, List.take_append_eq_append_take]

theorem ext0_length (serverName : List Byte) :
    ((addExtRec [0x00, 0x00] (generateSNI serverName)).length : Int)
      = 9 + serverName.length := by
  rw [addExtRec_length, generateSNI_length]
  simp
  omega

theorem composeExtensionsExt_ok (serverName keyShare : List Byte) (rnd : Nat → Byte)
    (h : serverName.length ≤ 150) :
    composeExtensionsExt serverName keyShare rnd = some (extRecords serverName keyShare rnd) := by
  have hp : makeBytes (159 - ((addExtRec [0x00, 0x00] (generateSNI serverName)).length : Int))
      = some (List.replicate (150 - serverName.length) 0) := by
    rw [ext0_length, makeBytes]
    have h1 : ¬ ((159 : Int) - (9 + (serverName.length : Int)) < 0) := by omega
    have h2 : ((159 : Int) - (9 + (serverName.length : Int))).toNat
        = 150 - serverName.length := by omega
    rw [if_neg h1, h2]
  simp only [composeExtensionsExt, hp]
  rfl

theorem composeExtensionsExt_panic (serverName keyShare : List Byte) (rnd : Nat → Byte)
    (h : 150 < serverName.length) :
    composeExtensionsExt serverName keyShare rnd = none := by
  have hp : makeBytes (159 - ((addExtRec [0x00, 0x00] (generateSNI serverName)).length : Int))
      = none := by
    rw [ext0_length, makeBytes]
    have h1 : ((159 : Int) - (9 + (serverName.length : Int)) < 0) := by omega
    rw [if_pos h1]
  simp only [composeExtensionsExt, hp]
  rfl

theorem extsBeforeKeyShare_eq (serverName : List Byte) :
    extsBeforeKeyShare serverName
      = addExtRec [0x00, 0x00] (generateSNI serverName)
        ++ [0x00, 0x17, 0x00, 0x00, 0xff, 0x01, 0x00, 0x01, 0x00,
            0x00, 0x0a, 0x00, 0x0e, 0x00, 0x0c, 0x00, 0x1d, 0x00, 0x17, 0x00, 0x18, 0x00, 0x19,
            0x01, 0x00, 0x01, 0x01,
            0x00, 0x0b, 0x00, 0x02, 0x01, 0x00, 0x00, 0x23, 0x00, 0x00,
            0x00, 0x10, 0x00, 0x0e, 0x00, 0x0c, 0x02, 0x68, 0x32, 0x08, 0x68, 0x74, 0x74, 0x70,
            0x2f, 0x31, 0x2e, 0x31,
            0x00, 0x05, 0x00, 0x05, 0x01, 0x00, 0x00, 0x00, 0x00,
            0x00, 0x22, 0x00, 0x0a, 0x00, 0x08, 0x04, 0x03, 0x05, 0x03, 0x06, 0x03, 0x02,
            0x03] := by
  simp only [extsBeforeKeyShare, extRecords, appendAll_eq_flatten, List.take, List.flatten,
    hex_suppGroup, hex_ALPN, hex_delegatedCredentials]
  simp [addExtRec_eq, uint16]

theorem extsBeforeKeyShare_length (serverName : List Byte) :
    (extsBeforeKeyShare serverName).length = 87 + serverName.length := by
  rw [extsBeforeKeyShare_eq]
  simp [addExtRec_length, generateSNI_length]
  omega

theorem extsAfterKeyShare_eq (serverName : List Byte) :
    extsAfterKeyShare serverName
      = [0x00, 0x2b, 0x00, 0x05, 0x04, 0x03, 0x04, 0x03, 0x03,
         0x00, 0x0d, 0x00, 0x18, 0x00, 0x16, 0x04, 0x03, 0x05, 0x03, 0x06, 0x03, 0x08, 0x04,
         0x08, 0x05, 0x08, 0x06, 0x04, 0x01, 0x05, 0x01, 0x06, 0x01, 0x02, 0x03, 0x02, 0x01,
         0x00, 0x2d, 0x00, 0x02, 0x01, 0x01, 0x00, 0x1c, 0x00, 0x02, 0x40, 0x01]
        ++ addExtRec [0x00, 0x15] (List.replicate (150 - serverName.length) 0) := by
  simp only [extsAfterKeyShare, extRecords, appendAll_eq_flatten, List.drop, List.flatten,
    hex_suppVersions, hex_sigAlgo]
  simp [addExtRec_eq, uint16]

theorem extsAfterKeyShare_length (serverName : List Byte) (h : serverName.length ≤ 150) :
    (extsAfterKeyShare serverName).length = 203 - serverName.length := by
  rw [extsAfterKeyShare_eq]
  simp [addExtRec_length]
  omega

theorem appendAll_extRecords (serverName keyShare : List Byte) (rnd : Nat → Byte) :
    appendAll (extRecords serverName keyShare rnd)
      = extsBeforeKeyShare serverName ++ [0x00, 0x33, 0x00, 0x6b]
          ++ (keyShareBuf keyShare).take 42 ++ (List.range 65).map rnd
          ++ extsAfterKeyShare serverName := by
  have h9 : addExtRec [0x00, 0x33] (composeKeyShare keyShare rnd)
      = [0x00, 0x33, 0x00, 0x6b] ++ (keyShareBuf keyShare).take 42
          ++ (List.range 65).map rnd := by
    rw [addExtRec_eq, composeKeyShare_length, composeKeyShare_split]
    simp [uint16]
  have hsplit : extRecords serverName keyShare rnd
      = (extRecords serverName [] (fun _ => 0)).take 9
        ++ [addExtRec [0x00, 0x33] (composeKeyShare keyShare rnd)]
        ++ (extRecords serverName [] (fun _ => 0)).drop 10 := rfl
  rw [hsplit, appendAll_eq_flatten, List.flatten_append, List.flatten_append, h9,
    extsBeforeKeyShare, extsAfterKeyShare, appendAll_eq_flatten, appendAll_eq_flatten]
  simp

theorem composeExtensions_layout (serverName keyShare : List Byte) (rnd : Nat → Byte)
    (h : serverName.length ≤ 150) :
    composeExtensions serverName keyShare rnd
      = some (extsBeforeKeyShare serverName ++ [0x00, 0x33, 0x00, 0x6b]
          ++ (keyShareBuf keyShare).take 42 ++ (List.range 65).map rnd
          ++ extsAfterKeyShare serverName) := by
  rw [composeExtensions, composeExtensionsExt_ok _ _ _ h, Option.map_some',
    appendAll_extRecords]

theorem composeExtensions_layout_length (serverName keyShare : List Byte) (rnd : Nat → Byte)
    (h : serverName.length ≤ 150) :
    (extsBeforeKeyShare serverName ++ [0x00, 0x33, 0x00, 0x6b]
          ++ (keyShareBuf keyShare).take 42 ++ (List.range 65).map rnd
          ++ extsAfterKeyShare serverName).length = 401 := by
  simp [extsBeforeKeyShare_length, extsAfterKeyShare_length _ h, keyShareBuf_length]
  omega

theorem composeExtensions_none_iff (serverName keyShare : List Byte) (rnd : Nat → Byte) :
    composeExtensions serverName keyShare rnd = none ↔ 150 < serverName.length := by
  constructor
  · intro hn
    by_contra hle
    rw [composeExtensions_layout _ _ _ (by omega)] at hn
    exact Option.noConfusion hn
  · intro hlt
    rw [composeExtensions, composeExtensionsExt_panic _ _ _ hlt]
    rfl

theorem composeClientHello_layout (hd : clientHelloFields) (rnd : Nat → Byte)
    (h : hd.serverName.length ≤ 150) :
    composeClientHello hd rnd
      = some (helloBeforeFiller hd ++ (List.range 65).map rnd
          ++ extsAfterKeyShare hd.serverName) := by
  simp only [composeClientHello, composeExtensions_layout _ _ _ h, Option.bind_eq_bind,
    Option.some_bind, composeExtensions_layout_length _ _ _ h, appendAll_eq_flatten, Option.pure_def]
  simp [helloBeforeFiller, helloHeader, putUint16_zero, uint16]

theorem composeClientHello_none_iff (hd : clientHelloFields) (rnd : Nat → Byte) :
    composeClientHello hd rnd = none ↔ 150 < hd.serverName.length := by
  constructor
  · intro hn
    by_contra hle
    rw [composeClientHello_layout _ _ (by omega)] at hn
    exact Option.noConfusion hn
  · intro hlt
    have hx := (composeExtensions_none_iff hd.serverName hd.x25519KeyShare rnd).2 hlt
    simp [composeClientHello, hx]

theorem helloHeader_length (hd : clientHelloFields) (hr : hd.random.length = 32)
    (hs : hd.sessionId.length = 32) : (helloHeader hd).length = 111 := by
  simp [helloHeader, hex_cipherSuites, hr, hs]

theorem helloBeforeFiller_length (hd : clientHelloFields) (hr : hd.random.length = 32)
    (hs : hd.sessionId.length = 32) :
    (helloBeforeFiller hd).length = 244 + hd.serverName.length := by
  simp [helloBeforeFiller, helloHeader_length hd hr hs, extsBeforeKeyShare_length,
    keyShareBuf_length]
  omega

theorem slice_mid {α : Type} (a b c : List α) (k : Nat) (hk : a.length = k) :
    ((a ++ b ++ c).drop k).take b.length = b := by
  subst hk
  simp

theorem getElem?_outside_mid {α : Type} (a b b' c : List α) (hb : b.length = b'.length)
    (i : Nat) (hi : i < a.length ∨ a.length + b.length ≤ i) :
    (a ++ b ++ c)[i]? = (a ++ b' ++ c)[i]? := by
  rcases hi with hi | hi
  · rw [List.append_assoc, List.append_assoc, List.getElem?_append_left hi,
      List.getElem?_append_left hi]
  · rw [List.getElem?_append_right (by simp; omega),
      List.getElem?_append_right (by simp; omega)]
    simp [hb]

theorem drop_after_mid {α : Type} (a b c : List α) (k : Nat) (hk : a.length + b.length = k) :
    (a ++ b ++ c).drop k = c := by
  subst hk
  rw [← List.length_append]
  simp

theorem take_before_mid {α : Type} (a b c : List α) (k : Nat) (hk : a.length = k) :
    (a ++ b ++ c).take k = a := by
  subst hk
  simp [List.append_assoc]

/-! ## Claims about `firefox.go` -/

/-- C2: for every server name of at most 150 bytes, every key share of any length and
every random filler, `composeExtensions` returns exactly 401 bytes. -/
theorem composeExtensions_length_401 (serverName keyShare : List Byte) (rnd : Nat → Byte)
    (hn : serverName.length ≤ 150) :
    (composeExtensions serverName keyShare rnd).map List.length = some 401 := by
  rw [composeExtensions_layout _ _ _ hn, Option.map_some',
    composeExtensions_layout_length _ _ _ hn]

theorem composeExtensions_length_401_witness :
    [0x61, 0x2e, 0x62].length ≤ 150
      ∧ (composeExtensions [0x61, 0x2e, 0x62] [1, 2, 3] (fun i => i)).map List.length
          = some 401 :=
  ⟨by decide, composeExtensions_length_401 [0x61, 0x2e, 0x62] [1, 2, 3] (fun i => i)
    (by decide)⟩

/-- C1: for 32-byte `random` and `sessionId` and a server name of at most 150 bytes,
`composeClientHello` returns a message of exactly 512 bytes, whatever the key share and the
random filler are. -/
theorem composeClientHello_length_512 (hd : clientHelloFields) (rnd : Nat → Byte)
    (hr : hd.random.length = 32) (hs : hd.sessionId.length = 32)
    (hn : hd.serverName.length ≤ 150) :
    (composeClientHello hd rnd).map List.length = some 512 := by
  rw [composeClientHello_layout _ _ hn, Option.map_some']
  simp [helloBeforeFiller_length hd hr hs, extsAfterKeyShare_length _ hn]
  omega

theorem composeClientHello_length_512_witness :
    (List.replicate 32 1 : List Byte).length = 32 ∧ (List.replicate 32 2 : List Byte).length = 32
      ∧ [0x61, 0x2e, 0x62].length ≤ 150
      ∧ (composeClientHello ⟨List.replicate 32 1, List.replicate 32 2, List.replicate 32 3,
            [0x61, 0x2e, 0x62]⟩ (fun i => i)).map List.length = some 512 :=
  ⟨by decide, by decide, by decide,
    composeClientHello_length_512 ⟨List.replicate 32 1, List.replicate 32 2,
      List.replicate 32 3, [0x61, 0x2e, 0x62]⟩ (fun i => i) (by decide) (by decide)
      (by decide)⟩

/-- C3: for a 32-byte secret, 32-byte `random` and `sessionId` and a server name of
`n ≤ 150` bytes, `composeClientHello` returns a message whose bytes `[208+n, 240+n)` are the
secret; they directly follow the bytes `00 1d 00 20`, and they are bytes `[6, 38)` of the
data of the key-share record, which occupies the message bytes `[198+n, 309+n)`. -/
theorem composeClientHello_secret_roundtrip (hd : clientHelloFields) (rnd : Nat → Byte)
    (hx : hd.x25519KeyShare.length = 32)
    (hr : hd.random.length = 32) (hs : hd.sessionId.length = 32)
    (hn : hd.serverName.length ≤ 150) :
    ∃ msg, composeClientHello hd rnd = some msg
      ∧ (msg.drop (208 + hd.serverName.length)).take 32 = hd.x25519KeyShare
      ∧ (msg.drop (204 + hd.serverName.length)).take 4 = [0x00, 0x1d, 0x00, 0x20]
      ∧ (msg.drop (198 + hd.serverName.length)).take 111
          = addExtRec [0x00, 0x33] (composeKeyShare hd.x25519KeyShare rnd)
      ∧ ((composeKeyShare hd.x25519KeyShare rnd).drop 6).take 32 = hd.x25519KeyShare := by
  refine ⟨_, composeClientHello_layout _ _ hn, ?_, ?_, ?_, ?_⟩
  · have hm : helloBeforeFiller hd ++ (List.range 65).map rnd
          ++ extsAfterKeyShare hd.serverName
        = (helloHeader hd ++ extsBeforeKeyShare hd.serverName ++ [0x00, 0x33, 0x00, 0x6b]
            ++ [0x00, 0x69, 0x00, 0x1d, 0x00, 0x20]) ++ hd.x25519KeyShare
          ++ ([0x00, 0x17, 0x00, 0x41] ++ (List.range 65).map rnd
            ++ extsAfterKeyShare hd.serverName) := by
      simp [helloBeforeFiller, keyShareBuf_head _ hx]
    rw [hm, ← hx]
    apply slice_mid
    simp [helloHeader_length hd hr hs, extsBeforeKeyShare_length]
    omega
  · have hm : helloBeforeFiller hd ++ (List.range 65).map rnd
          ++ extsAfterKeyShare hd.serverName
        = (helloHeader hd ++ extsBeforeKeyShare hd.serverName ++ [0x00, 0x33, 0x00, 0x6b]
            ++ [0x00, 0x69]) ++ [0x00, 0x1d, 0x00, 0x20]
          ++ (hd.x25519KeyShare ++ [0x00, 0x17, 0x00, 0x41] ++ (List.range 65).map rnd
            ++ extsAfterKeyShare hd.serverName) := by
      simp [helloBeforeFiller, keyShareBuf_head _ hx]
    rw [hm]
    apply slice_mid _ [0x00, 0x1d, 0x00, 0x20]
    simp [helloHeader_length hd hr hs, extsBeforeKeyShare_length]
    omega
  · have hrec : addExtRec [0x00, 0x33] (composeKeyShare hd.x25519KeyShare rnd)
        = [0x00, 0x33, 0x00, 0x6b] ++ (keyShareBuf hd.x25519KeyShare).take 42
          ++ (List.range 65).map rnd := by
      rw [addExtRec_eq, composeKeyShare_length, composeKeyShare_split]
      simp [uint16]
    have hlen : (addExtRec [0x00, 0x33] (composeKeyShare hd.x25519KeyShare rnd)).length
        = 111 := by
      rw [addExtRec_length, composeKeyShare_length]
      rfl
    have hm : helloBeforeFiller hd ++ (List.range 65).map rnd
          ++ extsAfterKeyShare hd.serverName
        = (helloHeader hd ++ extsBeforeKeyShare hd.serverName)
          ++ addExtRec [0x00, 0x33] (composeKeyShare hd.x25519KeyShare rnd)
          ++ extsAfterKeyShare hd.serverName := by
      rw [hrec]
      simp [helloBeforeFiller]
    rw [hm, ← hlen]
    apply slice_mid
    simp [helloHeader_length hd hr hs, extsBeforeKeyShare_length]
    omega
  · rw [composeKeyShare_split, keyShareBuf_head _ hx]
    have hm : [0x00, 0x69, 0x00, 0x1d, 0x00, 0x20] ++ hd.x25519KeyShare
          ++ [0x00, 0x17, 0x00, 0x41] ++ (List.range 65).map rnd
        = [0x00, 0x69, 0x00, 0x1d, 0x00, 0x20] ++ hd.x25519KeyShare
          ++ ([0x00, 0x17, 0x00, 0x41] ++ (List.range 65).map rnd) := by
      simp
    rw [hm, ← hx]
    apply slice_mid
    rfl

theorem composeClientHello_secret_roundtrip_witness :
    ∃ msg, composeClientHello ⟨List.replicate 32 1, List.replicate 32 2,
          List.range 32, [0x61, 0x2e, 0x62]⟩ (fun i => i) = some msg
      ∧ (msg.drop (208 + 3)).take 32 = List.range 32
      ∧ (msg.drop (204 + 3)).take 4 = [0x00, 0x1d, 0x00, 0x20]
      ∧ (msg.drop (198 + 3)).take 111
          = addExtRec [0x00, 0x33] (composeKeyShare (List.range 32) (fun i => i))
      ∧ ((composeKeyShare (List.range 32) (fun i => i)).drop 6).take 32 = List.range 32 :=
  composeClientHello_secret_roundtrip ⟨List.replicate 32 1, List.replicate 32 2,
    List.range 32, [0x61, 0x2e, 0x62]⟩ (fun i => i) (by decide) (by decide) (by decide)
    (by decide)

/-- C4: `composeExtensions` and `composeClientHello` panic (return no message) exactly
when the server name is longer than 150 bytes; for every shorter name both return a
message. -/
theorem compose_panics_iff_name_too_long (hd : clientHelloFields) (rnd : Nat → Byte) :
    (composeExtensions hd.serverName hd.x25519KeyShare rnd = none
        ↔ 150 < hd.serverName.length)
      ∧ (composeClientHello hd rnd = none ↔ 150 < hd.serverName.length)
      ∧ ((composeExtensions hd.serverName hd.x25519KeyShare rnd).isSome
        ↔ hd.serverName.length ≤ 150)
      ∧ ((composeClientHello hd rnd).isSome ↔ hd.serverName.length ≤ 150) := by
  have h1 := composeExtensions_none_iff hd.serverName hd.x25519KeyShare rnd
  have h2 := composeClientHello_none_iff hd rnd
  refine ⟨h1, h2, ?_, ?_⟩
  · rw [← Option.not_isSome_iff_eq_none] at h1
    constructor
    · intro h
      by_contra hc
      exact (h1.2 (by omega)) h
    · intro h
      by_contra hc
      have := h1.1 hc
      omega
  · rw [← Option.not_isSome_iff_eq_none] at h2
    constructor
    · intro h
      by_contra hc
      exact (h2.2 (by omega)) h
    · intro h
      by_contra hc
      have := h2.1 hc
      omega

/-- C6: two runs of `composeClientHello` on the same fields (32-byte `random` and
`sessionId`, server name of `n ≤ 150` bytes, any key share) with two random sources return
messages of the same length that agree at every index outside `[244+n, 309+n)`; when the
two sources agree on their first 65 bytes the messages are equal. -/
theorem composeClientHello_filler_noninterference (hd : clientHelloFields)
    (rnd1 rnd2 : Nat → Byte)
    (hr : hd.random.length = 32) (hs : hd.sessionId.length = 32)
    (hn : hd.serverName.length ≤ 150) :
    ∃ m1 m2, composeClientHello hd rnd1 = some m1 ∧ composeClientHello hd rnd2 = some m2
      ∧ m1.length = m2.length
      ∧ (∀ i, i < 244 + hd.serverName.length ∨ 309 + hd.serverName.length ≤ i →
          m1[i]? = m2[i]?)
      ∧ m1.take (244 + hd.serverName.length) = m2.take (244 + hd.serverName.length)
      ∧ m1.drop (309 + hd.serverName.length) = m2.drop (309 + hd.serverName.length)
      ∧ ((∀ i, i < 65 → rnd1 i = rnd2 i) → m1 = m2) := by
  have hA := helloBeforeFiller_length hd hr hs
  refine ⟨_, _, composeClientHello_layout _ _ hn, composeClientHello_layout _ _ hn,
    ?_, ?_, ?_, ?_, ?_⟩
  · simp
  · intro i hi
    apply getElem?_outside_mid
    · simp
    · rw [hA]
      simp only [List.length_map, List.length_range]
      omega
  · rw [take_before_mid _ _ _ _ hA, take_before_mid _ _ _ _ hA]
  · rw [drop_after_mid _ _ _ _ (by simp [hA]; omega),
      drop_after_mid _ _ _ _ (by simp [hA]; omega)]
  · intro hagree
    have : (List.range 65).map rnd1 = (List.range 65).map rnd2 := by
      apply List.map_congr_left
      intro i hi
      exact hagree i (List.mem_range.1 hi)
    rw [this]

theorem composeClientHello_filler_noninterference_witness :
    ∃ m1 m2, composeClientHello ⟨List.replicate 32 1, List.replicate 32 2,
          List.range 32, [0x61, 0x2e, 0x62]⟩ (fun i => i) = some m1
      ∧ composeClientHello ⟨List.replicate 32 1, List.replicate 32 2,
          List.range 32, [0x61, 0x2e, 0x62]⟩ (fun i => 2 * i + 1) = some m2
      ∧ m1.length = m2.length
      ∧ (∀ i, i < 244 + 3 ∨ 309 + 3 ≤ i → m1[i]? = m2[i]?)
      ∧ m1.take (244 + 3) = m2.take (244 + 3)
      ∧ m1.drop (309 + 3) = m2.drop (309 + 3)
      ∧ ((∀ i, i < 65 → (fun i => i) i = (fun i => 2 * i + 1) i) → m1 = m2) :=
  composeClientHello_filler_noninterference ⟨List.replicate 32 1, List.replicate 32 2,
    List.range 32, [0x61, 0x2e, 0x62]⟩ (fun i => i) (fun i => 2 * i + 1) (by decide)
    (by decide) (by decide)

theorem parseRecords_addExtRec (fuel : Nat) (t0 t1 : Byte) (data rest : List Byte)
    (hd : data.length < 65536) :
    parseRecords (fuel + 1) (addExtRec [t0, t1] data ++ rest)
      = (parseRecords fuel rest).map (fun rs => ⟨[t0, t1], data⟩ :: rs) := by
  have hL : data.length % 65536 / 256 % 256 * 256 + data.length % 65536 % 256
      = data.length := by omega
  have hcons : addExtRec [t0, t1] data ++ rest
      = t0 :: t1 :: (data.length % 65536 / 256 % 256) :: (data.length % 65536 % 256)
          :: (data ++ rest) := by
    simp [addExtRec_eq, uint16]
  rw [hcons, parseRecords]
  simp only [parseRecord, hL]
  rw [if_pos (by simp)]
  simp

theorem appendAll_extRecords_length (serverName keyShare : List Byte) (rnd : Nat → Byte)
    (h : serverName.length ≤ 150) :
    (appendAll (extRecords serverName keyShare rnd)).length = 401 := by
  rw [appendAll_extRecords, composeExtensions_layout_length _ _ _ h]

/-- C5: for a server name of at most 150 bytes the output of `composeExtensions` parses,
using up all its bytes, as exactly fifteen type-length-data records with the types
0000, 0017, ff01, 000a, 000b, 0023, 0010, 0005, 0022, 0033, 002b, 000d, 002d, 001c, 0015 in
this order; the data of the first record is `generateSNI serverName` and ends with the
server name, the data of the tenth is the key share, and the data lengths of the records
between the first and the last are 0, 1, 14, 2, 0, 14, 5, 10, 107, 5, 24, 2, 2, whatever the
server name is. -/
theorem composeExtensions_parses_fifteen_records (serverName keyShare : List Byte)
    (rnd : Nat → Byte) (hn : serverName.length ≤ 150) :
    ∃ out recs, composeExtensions serverName keyShare rnd = some out
      ∧ parseExtensions out = some recs
      ∧ recs.length = 15
      ∧ recs.map ExtRecord.typ
          = [[0x00, 0x00], [0x00, 0x17], [0xff, 0x01], [0x00, 0x0a], [0x00, 0x0b],
             [0x00, 0x23], [0x00, 0x10], [0x00, 0x05], [0x00, 0x22], [0x00, 0x33],
             [0x00, 0x2b], [0x00, 0x0d], [0x00, 0x2d], [0x00, 0x1c], [0x00, 0x15]]
      ∧ (recs.map ExtRecord.data).head? = some (generateSNI serverName)
      ∧ (generateSNI serverName).drop 5 = serverName
      ∧ (recs.map ExtRecord.data).get? 9 = some (composeKeyShare keyShare rnd)
      ∧ ((recs.drop 1).take 13).map (fun r => r.data.length)
          = [0, 1, 14, 2, 0, 14, 5, 10, 107, 5, 24, 2, 2]
      ∧ (recs.map ExtRecord.data).get? 14
          = some (List.replicate (150 - serverName.length) 0) := by
  refine ⟨appendAll (extRecords serverName keyShare rnd),
    [⟨[0x00, 0x00], generateSNI serverName⟩,
     ⟨[0x00, 0x17], []⟩,
     ⟨[0xff, 0x01], [0x00]⟩,
     ⟨[0x00, 0x0a], hexDecodeString "000c001d00170018001901000101"⟩,
     ⟨[0x00, 0x0b], [0x01, 0x00]⟩,
     ⟨[0x00, 0x23], []⟩,
     ⟨[0x00, 0x10], hexDecodeString "000c02683208687474702f312e31"⟩,
     ⟨[0x00, 0x05], [0x01, 0x00, 0x00, 0x00, 0x00]⟩,
     ⟨[0x00, 0x22], hexDecodeString "00080403050306030203"⟩,
     ⟨[0x00, 0x33], composeKeyShare keyShare rnd⟩,
     ⟨[0x00, 0x2b], hexDecodeString "0403040303"⟩,
     ⟨[0x00, 0x0d], hexDecodeString "001604030503060308040805080604010501060102030201"⟩,
     ⟨[0x00, 0x2d], [0x01, 0x01]⟩,
     ⟨[0x00, 0x1c], [0x40, 0x01]⟩,
     ⟨[0x00, 0x15], List.replicate (150 - serverName.length) 0⟩], ?_, ?_, rfl, rfl, rfl, ?_,
     rfl, ?_, rfl⟩
  · rw [composeExtensions, composeExtensionsExt_ok _ _ _ hn, Option.map_some']
  · rw [parseExtensions, appendAll_extRecords_length _ _ _ hn, appendAll_eq_flatten]
    simp only [extRecords, List.flatten]
    rw [parseRecords_addExtRec _ _ _ _ _ (by rw [generateSNI_length]; omega),
      parseRecords_addExtRec _ _ _ _ _ (by decide),
      parseRecords_addExtRec _ _ _ _ _ (by decide),
      parseRecords_addExtRec _ _ _ _ _ (by decide),
      parseRecords_addExtRec _ _ _ _ _ (by decide),
      parseRecords_addExtRec _ _ _ _ _ (by decide),
      parseRecords_addExtRec _ _ _ _ _ (by decide),
      parseRecords_addExtRec _ _ _ _ _ (by decide),
      parseRecords_addExtRec _ _ _ _ _ (by decide),
      parseRecords_addExtRec _ _ _ _ _ (by rw [composeKeyShare_length]; decide),
      parseRecords_addExtRec _ _ _ _ _ (by decide),
      parseRecords_addExtRec _ _ _ _ _ (by decide),
      parseRecords_addExtRec _ _ _ _ _ (by decide),
      parseRecords_addExtRec _ _ _ _ _ (by decide),
      parseRecords_addExtRec _ _ _ _ _ (by rw [List.length_replicate]; omega)]
    rfl
  · simp [generateSNI, putUint16_zero]
  · simp only [List.drop, List.take, List.map, composeKeyShare_length, hex_suppGroup, hex_ALPN,
      hex_delegatedCredentials, hex_suppVersions, hex_sigAlgo]
    rfl

theorem composeExtensions_parses_fifteen_records_witness :
    ∃ out recs, composeExtensions [0x61, 0x2e, 0x62] [1, 2, 3] (fun i => i) = some out
      ∧ parseExtensions out = some recs
      ∧ recs.length = 15
      ∧ recs.map ExtRecord.typ
          = [[0x00, 0x00], [0x00, 0x17], [0xff, 0x01], [0x00, 0x0a], [0x00, 0x0b],
             [0x00, 0x23], [0x00, 0x10], [0x00, 0x05], [0x00, 0x22], [0x00, 0x33],
             [0x00, 0x2b], [0x00, 0x0d], [0x00, 0x2d], [0x00, 0x1c], [0x00, 0x15]]
      ∧ (recs.map ExtRecord.data).head? = some (generateSNI [0x61, 0x2e, 0x62])
      ∧ (generateSNI [0x61, 0x2e, 0x62]).drop 5 = [0x61, 0x2e, 0x62]
      ∧ (recs.map ExtRecord.data).get? 9 = some (composeKeyShare [1, 2, 3] (fun i => i))
      ∧ ((recs.drop 1).take 13).map (fun r => r.data.length)
          = [0, 1, 14, 2, 0, 14, 5, 10, 107, 5, 24, 2, 2]
      ∧ (recs.map ExtRecord.data).get? 14
          = some (List.replicate (150 - [0x61, 0x2e, 0x62].length) 0) :=
  composeExtensions_parses_fifteen_records [0x61, 0x2e, 0x62] [1, 2, 3] (fun i => i)
    (by decide)

/-- C10 (as stated, refuted): for the server name "a" the function succeeds, `ext[0]` has
10 bytes and the padding has 149 bytes, so `len(padding) = 177 - len(ext[0])` fails. -/
theorem padding_length_177_counterexample :
    ¬ (∀ ext padding, composeExtensionsExt [0x61] [] (fun _ => 0) = some ext →
        ext.getD 14 [] = addExtRec [0x00, 0x15] padding →
        (ext.getD 0 []).length + 238 + 4 + padding.length = 401
          ∧ (padding.length : Int) = 177 - ((ext.getD 0 []).length : Int)) := by
  intro h
  have h1 := h (extRecords [0x61] [] (fun _ => 0)) (List.replicate 149 0) rfl rfl
  have h2 : ¬ (((List.replicate 149 0 : List Byte).length : Int)
      = 177 - (((extRecords [0x61] [] (fun _ => 0)).getD 0 []).length : Int)) := by
    rw [List.length_replicate]
    decide
  exact h2 h1.2

/-- C10 (amended): whenever `composeExtensions` succeeds, the last entry of `ext` is the
padding record of a padding with `len(padding) = 159 - len(ext[0])`, the records
`ext[1]..ext[13]` have 238 bytes in total, and
`len(ext[0]) + 238 + 4 + len(padding) = 401`. -/
theorem padding_length_159 (serverName keyShare : List Byte) (rnd : Nat → Byte)
    (ext : List (List Byte)) (h : composeExtensionsExt serverName keyShare rnd = some ext) :
    ∃ padding, ext.getD 14 [] = addExtRec [0x00, 0x15] padding
      ∧ (padding.length : Int) = 159 - ((ext.getD 0 []).length : Int)
      ∧ (((ext.drop 1).take 13).map List.length).sum = 238
      ∧ (ext.getD 0 []).length + 238 + 4 + padding.length = 401 := by
  have hn : serverName.length ≤ 150 := by
    by_contra hc
    rw [composeExtensionsExt_panic _ _ _ (by omega)] at h
    exact Option.noConfusion h
  rw [composeExtensionsExt_ok _ _ _ hn] at h
  have hext : ext = extRecords serverName keyShare rnd := (Option.some.inj h).symm
  subst hext
  have h0 : ((extRecords serverName keyShare rnd).getD 0 []).length
      = 9 + serverName.length := by
    have := ext0_length serverName
    simp only [extRecords, List.getD_cons_zero]
    omega
  refine ⟨List.replicate (150 - serverName.length) 0, rfl, ?_, ?_, ?_⟩
  · rw [h0, List.length_replicate]
    omega
  · simp only [extRecords, List.drop, List.take, List.map, addExtRec_length,
      composeKeyShare_length, hex_suppGroup, hex_ALPN, hex_delegatedCredentials,
      hex_suppVersions, hex_sigAlgo]
    rfl
  · rw [h0, List.length_replicate]
    omega

theorem padding_length_159_witness :
    composeExtensionsExt [0x61] [] (fun _ => 0) = some (extRecords [0x61] [] (fun _ => 0))
      ∧ ∃ padding, (extRecords [0x61] [] (fun _ => 0)).getD 14 []
            = addExtRec [0x00, 0x15] padding
          ∧ (padding.length : Int)
            = 159 - (((extRecords [0x61] [] (fun _ => 0)).getD 0 []).length : Int)
          ∧ ((((extRecords [0x61] [] (fun _ => 0)).drop 1).take 13).map List.length).sum
            = 238
          ∧ ((extRecords [0x61] [] (fun _ => 0)).getD 0 []).length + 238 + 4
            + padding.length = 401 :=
  ⟨rfl, padding_length_159 [0x61] [] (fun _ => 0) _ rfl⟩

end Firefox
end Cloak

/-! ## Helper lemmas for `makeSession` -/

namespace Cloak

theorem pending_update_same (lanes : Nat → Lane) (i : Nat) (l : Lane) (n : Nat)
    (h : l.pc = .finished ↔ (lanes i).pc = .finished) :
    pending (Function.update lanes i l) n = pending lanes n := by
  unfold pending
  apply Finset.sum_congr rfl
  intro j _
  by_cases hji : j = i
  · subst hji
    simp only [Function.update_same]
    by_cases hf : (lanes j).pc = .finished
    · rw [if_pos hf, if_pos (h.2 hf)]
    · rw [if_neg hf, if_neg (fun hc => hf (h.1 hc))]
  · rw [Function.update_noteq hji]

theorem pending_update_finish (lanes : Nat → Lane) (i : Nat) (l : Lane) (n : Nat)
    (hi : i < n) (h1 : (lanes i).pc ≠ .finished) (h2 : l.pc = .finished) :
    pending (Function.update lanes i l) n + 1 = pending lanes n := by
  unfold pending
  have hmem : i ∈ Finset.range n := Finset.mem_range.2 hi
  rw [← Finset.add_sum_erase _ _ hmem, ← Finset.add_sum_erase (Finset.range n) _ hmem]
  simp only [Function.update_same, if_pos h2, if_neg h1]
  have : ∀ j ∈ (Finset.range n).erase i,
      (if (Function.update lanes i l j).pc = LanePc.finished then 0 else 1)
        = (if (lanes j).pc = LanePc.finished then 0 else 1) := by
    intro j hj
    rw [Function.update_noteq (Finset.ne_of_mem_erase hj)]
  rw [Finset.sum_congr rfl this]
  omega

theorem pending_eq_zero (lanes : Nat → Lane) (n : Nat) (h : pending lanes n = 0) :
    ∀ j, j < n → (lanes j).pc = .finished := by
  intro j hj
  unfold pending at h
  rw [Finset.sum_eq_zero_iff] at h
  have := h j (Finset.mem_range.2 hj)
  by_contra hc
  rw [if_neg hc] at this
  exact one_ne_zero this

theorem pending_spawned (n : Nat) : pending (spawned n).lanes n = n := by
  simp [pending, spawned]


theorem setLane_lanes_same (s : Sys) (i : Nat) (l : Lane) : (setLane s i l).lanes i = l := by
  simp [setLane]

theorem setLane_lanes_ne (s : Sys) (i : Nat) (l : Lane) (j : Nat) (h : j ≠ i) :
    (setLane s i l).lanes j = s.lanes j := by
  simp [setLane, Function.update_noteq h]

theorem sent_stored {pc : LanePc} (h : pc.sent) : pc.stored := Or.inr h

/-- A step of lane `i` before its `Store`: neither the channel, nor the key, nor the
counter change. -/
theorem Inv_early (net : Nat → Nat → Attempt) (n : Nat) (s : Sys) (i : Nat) (l : Lane)
    (cl : List Conn) (h : Inv net n s)
    (hold : ¬ (s.lanes i).pc.stored) (hnew : ¬ l.pc.stored)
    (hstore : ∀ sk, l.pc = .store sk → net i l.tries = .ok sk)
    (hfirst : ∀ j, j < l.tries → ∀ sk, net i j ≠ .ok sk)
    (hdial : l.pc = .prepare → net i l.tries ≠ .dialFail)
    (hcl : ∀ c, c ∈ cl → net c.lane c.attempt = .prepareFail) :
    Inv net n (setLane { s with closed := cl } i l) := by
  have hne : ∀ j, (s.lanes j).pc.stored → j ≠ i := by
    intro j hj hji
    subst hji
    exact hold hj
  have hlanes : ∀ j, (setLane { s with closed := cl } i l).lanes j
      = if j = i then l else s.lanes j := by
    intro j
    by_cases hji : j = i
    · subst hji
      rw [setLane_lanes_same, if_pos rfl]
    · rw [setLane_lanes_ne _ _ _ _ hji, if_neg hji]
  refine ⟨?_, h.ch_nodup, ?_, ?_, ?_, ?_, ?_, ?_, ?_, ?_, hcl, h.key_last⟩
  · intro c hc
    obtain ⟨a, b, d⟩ := h.ch_lane c hc
    have := hne _ (sent_stored b)
    rw [hlanes, if_neg this]
    exact ⟨a, b, d⟩
  · intro j hj hs
    by_cases hji : j = i
    · subst hji
      rw [hlanes, if_pos rfl] at hs
      exact absurd (sent_stored hs) hnew
    · rw [hlanes, if_neg hji] at hs ⊢
      exact h.ch_has j hj hs
  · intro j hj sk hs
    by_cases hji : j = i
    · subst hji
      rw [hlanes, if_pos rfl] at hs ⊢
      exact hstore sk hs
    · rw [hlanes, if_neg hji] at hs ⊢
      exact h.live_store j hj sk hs
  · intro j hj hs
    by_cases hji : j = i
    · subst hji
      rw [hlanes, if_pos rfl] at hs
      exact absurd hs hnew
    · rw [hlanes, if_neg hji] at hs ⊢
      exact h.live j hj hs
  · intro j hj k hk sk
    by_cases hji : j = i
    · subst hji
      rw [hlanes, if_pos rfl] at hk
      exact hfirst k hk sk
    · rw [hlanes, if_neg hji] at hk
      exact h.first j hj k hk sk
  · intro j hj hs
    by_cases hji : j = i
    · subst hji
      rw [hlanes, if_pos rfl] at hs ⊢
      exact hdial hs
    · rw [hlanes, if_neg hji] at hs ⊢
      exact h.dialled j hj hs
  · have hp : pending (setLane { s with closed := cl } i l).lanes n = pending s.lanes n := by
      apply pending_update_same
      constructor
      · intro hf
        exact absurd (Or.inr (Or.inr hf)) hnew
      · intro hf
        exact absurd (Or.inr (Or.inr hf)) hold
    rw [hp]
    exact h.wg_count
  · intro k hk
    obtain ⟨j, hj, hs, hn⟩ := h.key_from k hk
    refine ⟨j, hj, ?_⟩
    rw [hlanes, if_neg (hne j hs)]
    exact ⟨hs, hn⟩
  · intro j hj hs
    by_cases hji : j = i
    · subst hji
      rw [hlanes, if_pos rfl] at hs
      exact absurd hs hnew
    · rw [hlanes, if_neg hji] at hs
      exact h.key_some j hj hs

/-- The step `_sessionKey.Store(sk)` of lane `i`. -/
theorem Inv_store (net : Nat → Nat → Attempt) (n : Nat) (s : Sys) (i : Nat) (sk : Key)
    (hi : i < n) (h : Inv net n s) (hpc : (s.lanes i).pc = .store sk) :
    Inv net n
      (setLane { s with sessionKey := some sk, storeLog := s.storeLog ++ [(i, sk)] } i
        ⟨.send, (s.lanes i).tries⟩) := by
  have hold : ¬ (s.lanes i).pc.stored := by
    rw [hpc]
    simp [LanePc.stored]
  have hne : ∀ j, (s.lanes j).pc.stored → j ≠ i := by
    intro j hj hji
    subst hji
    exact hold hj
  have hlanes : ∀ j,
      (setLane { s with sessionKey := some sk, storeLog := s.storeLog ++ [(i, sk)] } i
      ⟨.send, (s.lanes i).tries⟩).lanes j
      = if j = i then ⟨.send, (s.lanes i).tries⟩ else s.lanes j := by
    intro j
    by_cases hji : j = i
    · subst hji
      rw [setLane_lanes_same, if_pos rfl]
    · rw [setLane_lanes_ne _ _ _ _ hji, if_neg hji]
  have hok := h.live_store i hi sk hpc
  refine ⟨?_, h.ch_nodup, ?_, ?_, ?_, ?_, ?_, ?_, ?_, ?_, h.closed_failed, ?_⟩
  · intro c hc
    obtain ⟨a, b, d⟩ := h.ch_lane c hc
    have := hne _ (sent_stored b)
    rw [hlanes, if_neg this]
    exact ⟨a, b, d⟩
  · intro j hj hs
    by_cases hji : j = i
    · subst hji
      rw [hlanes, if_pos rfl] at hs
      simp [LanePc.sent] at hs
    · rw [hlanes, if_neg hji] at hs ⊢
      exact h.ch_has j hj hs
  · intro j hj sk' hs
    by_cases hji : j = i
    · subst hji
      rw [hlanes, if_pos rfl] at hs
      simp at hs
    · rw [hlanes, if_neg hji] at hs ⊢
      exact h.live_store j hj sk' hs
  · intro j hj hs
    by_cases hji : j = i
    · subst hji
      rw [hlanes, if_pos rfl]
      exact ⟨sk, hok⟩
    · rw [hlanes, if_neg hji] at hs ⊢
      exact h.live j hj hs
  · intro j hj k hk sk'
    by_cases hji : j = i
    · subst hji
      rw [hlanes, if_pos rfl] at hk
      exact h.first j hj k hk sk'
    · rw [hlanes, if_neg hji] at hk
      exact h.first j hj k hk sk'
  · intro j hj hs
    by_cases hji : j = i
    · subst hji
      rw [hlanes, if_pos rfl] at hs
      simp at hs
    · rw [hlanes, if_neg hji] at hs ⊢
      exact h.dialled j hj hs
  · have hp : pending
        (setLane { s with sessionKey := some sk, storeLog := s.storeLog ++ [(i, sk)] } i
        ⟨.send, (s.lanes i).tries⟩).lanes n = pending s.lanes n := by
      apply pending_update_same
      rw [hpc]
      simp
    rw [hp]
    exact h.wg_count
  · intro k hk
    have hk' : sk = k := Option.some.inj hk
    subst hk'
    refine ⟨i, hi, ?_⟩
    rw [hlanes, if_pos rfl]
    exact ⟨Or.inl rfl, hok⟩
  · intro j hj _ hc
    exact Option.noConfusion hc
  · show some sk = (s.storeLog ++ [(i, sk)]).getLast?.map Prod.snd
    simp


/-- The step `connsCh <- remoteConn` of lane `i`. -/
theorem Inv_send (net : Nat → Nat → Attempt) (n : Nat) (s : Sys) (i : Nat)
    (hi : i < n) (h : Inv net n s) (hpc : (s.lanes i).pc = .send) :
    Inv net n (setLane { s with connsCh := s.connsCh ++ [⟨i, (s.lanes i).tries⟩] } i
      ⟨.wgDone, (s.lanes i).tries⟩) := by
  have hold : ¬ (s.lanes i).pc.sent := by
    rw [hpc]
    simp [LanePc.sent]
  have hne : ∀ j, (s.lanes j).pc.sent → j ≠ i := by
    intro j hj hji
    subst hji
    exact hold hj
  have hlanes : ∀ j, (setLane { s with connsCh := s.connsCh ++ [⟨i, (s.lanes i).tries⟩] } i
      ⟨.wgDone, (s.lanes i).tries⟩).lanes j
      = if j = i then ⟨.wgDone, (s.lanes i).tries⟩ else s.lanes j := by
    intro j
    by_cases hji : j = i
    · subst hji
      rw [setLane_lanes_same, if_pos rfl]
    · rw [setLane_lanes_ne _ _ _ _ hji, if_neg hji]
  have hch : (setLane { s with connsCh := s.connsCh ++ [⟨i, (s.lanes i).tries⟩] } i
      ⟨.wgDone, (s.lanes i).tries⟩).connsCh = s.connsCh ++ [⟨i, (s.lanes i).tries⟩] := rfl
  have hstored : (s.lanes i).pc.stored := Or.inl hpc
  refine ⟨?_, ?_, ?_, ?_, ?_, ?_, ?_, ?_, ?_, ?_, h.closed_failed, h.key_last⟩
  · intro c hc
    rw [hch, List.mem_append, List.mem_singleton] at hc
    rcases hc with hc | hc
    · obtain ⟨a, b, d⟩ := h.ch_lane c hc
      rw [hlanes, if_neg (hne _ b)]
      exact ⟨a, b, d⟩
    · subst hc
      rw [hlanes, if_pos rfl]
      exact ⟨hi, Or.inl rfl, rfl⟩
  · rw [hch, List.map_append, List.nodup_append]
    refine ⟨h.ch_nodup, List.nodup_singleton _, ?_⟩
    intro a ha hb
    rw [List.map_singleton, List.mem_singleton] at hb
    obtain ⟨c, hc, hca⟩ := List.mem_map.1 ha
    have := (h.ch_lane c hc).2.1
    rw [hca, hb] at this
    exact hold this
  · intro j hj hs
    rw [hch, List.mem_append, List.mem_singleton]
    by_cases hji : j = i
    · subst hji
      rw [hlanes, if_pos rfl]
      exact Or.inr rfl
    · rw [hlanes, if_neg hji] at hs ⊢
      exact Or.inl (h.ch_has j hj hs)
  · intro j hj sk' hs
    by_cases hji : j = i
    · subst hji
      rw [hlanes, if_pos rfl] at hs
      simp at hs
    · rw [hlanes, if_neg hji] at hs ⊢
      exact h.live_store j hj sk' hs
  · intro j hj hs
    by_cases hji : j = i
    · subst hji
      rw [hlanes, if_pos rfl]
      exact h.live j hj hstored
    · rw [hlanes, if_neg hji] at hs ⊢
      exact h.live j hj hs
  · intro j hj k hk sk'
    by_cases hji : j = i
    · subst hji
      rw [hlanes, if_pos rfl] at hk
      exact h.first j hj k hk sk'
    · rw [hlanes, if_neg hji] at hk
      exact h.first j hj k hk sk'
  · intro j hj hs
    by_cases hji : j = i
    · subst hji
      rw [hlanes, if_pos rfl] at hs
      simp at hs
    · rw [hlanes, if_neg hji] at hs ⊢
      exact h.dialled j hj hs
  · have hp : pending (setLane { s with connsCh := s.connsCh ++ [⟨i, (s.lanes i).tries⟩] } i
        ⟨.wgDone, (s.lanes i).tries⟩).lanes n = pending s.lanes n := by
      apply pending_update_same
      rw [hpc]
      simp
    rw [hp]
    exact h.wg_count
  · intro k hk
    obtain ⟨j, hj, hs, hn⟩ := h.key_from k hk
    refine ⟨j, hj, ?_⟩
    by_cases hji : j = i
    · subst hji
      rw [hlanes, if_pos rfl]
      exact ⟨Or.inr (Or.inl rfl), hn⟩
    · rw [hlanes, if_neg hji]
      exact ⟨hs, hn⟩
  · intro j hj hs
    by_cases hji : j = i
    · subst hji
      exact h.key_some j hj hstored
    · rw [hlanes, if_neg hji] at hs
      exact h.key_some j hj hs

/-- The step `wg.Done()` of lane `i`. -/
theorem Inv_wgDone (net : Nat → Nat → Attempt) (n : Nat) (s : Sys) (i : Nat)
    (hi : i < n) (h : Inv net n s) (hpc : (s.lanes i).pc = .wgDone) :
    Inv net n (setLane { s with wg := s.wg - 1 } i ⟨.finished, (s.lanes i).tries⟩) := by
  have hlanes : ∀ j, (setLane { s with wg := s.wg - 1 } i
      ⟨.finished, (s.lanes i).tries⟩).lanes j
      = if j = i then ⟨.finished, (s.lanes i).tries⟩ else s.lanes j := by
    intro j
    by_cases hji : j = i
    · subst hji
      rw [setLane_lanes_same, if_pos rfl]
    · rw [setLane_lanes_ne _ _ _ _ hji, if_neg hji]
  have hsent : (s.lanes i).pc.sent := Or.inl hpc
  have hstored : (s.lanes i).pc.stored := sent_stored hsent
  refine ⟨?_, h.ch_nodup, ?_, ?_, ?_, ?_, ?_, ?_, ?_, ?_, h.closed_failed, h.key_last⟩
  · intro c hc
    obtain ⟨a, b, d⟩ := h.ch_lane c hc
    by_cases hji : c.lane = i
    · rw [hlanes, if_pos hji]
      rw [hji] at d
      exact ⟨a, Or.inr rfl, d⟩
    · rw [hlanes, if_neg hji]
      exact ⟨a, b, d⟩
  · intro j hj hs
    by_cases hji : j = i
    · subst hji
      rw [hlanes, if_pos rfl]
      exact h.ch_has j hj hsent
    · rw [hlanes, if_neg hji] at hs ⊢
      exact h.ch_has j hj hs
  · intro j hj sk' hs
    by_cases hji : j = i
    · subst hji
      rw [hlanes, if_pos rfl] at hs
      simp at hs
    · rw [hlanes, if_neg hji] at hs ⊢
      exact h.live_store j hj sk' hs
  · intro j hj hs
    by_cases hji : j = i
    · subst hji
      rw [hlanes, if_pos rfl]
      exact h.live j hj hstored
    · rw [hlanes, if_neg hji] at hs ⊢
      exact h.live j hj hs
  · intro j hj k hk sk'
    by_cases hji : j = i
    · subst hji
      rw [hlanes, if_pos rfl] at hk
      exact h.first j hj k hk sk'
    · rw [hlanes, if_neg hji] at hk
      exact h.first j hj k hk sk'
  · intro j hj hs
    by_cases hji : j = i
    · subst hji
      rw [hlanes, if_pos rfl] at hs
      simp at hs
    · rw [hlanes, if_neg hji] at hs ⊢
      exact h.dialled j hj hs
  · have hp : pending (setLane { s with wg := s.wg - 1 } i
        ⟨.finished, (s.lanes i).tries⟩).lanes n + 1 = pending s.lanes n := by
      apply pending_update_finish _ _ _ _ hi
      · rw [hpc]
        simp
      · rfl
    have hw := h.wg_count
    show s.wg - 1 = _
    omega
  · intro k hk
    obtain ⟨j, hj, hs, hn⟩ := h.key_from k hk
    refine ⟨j, hj, ?_⟩
    by_cases hji : j = i
    · subst hji
      rw [hlanes, if_pos rfl]
      exact ⟨Or.inr (Or.inr rfl), hn⟩
    · rw [hlanes, if_neg hji]
      exact ⟨hs, hn⟩
  · intro j hj hs
    by_cases hji : j = i
    · subst hji
      exact h.key_some j hj hstored
    · rw [hlanes, if_neg hji] at hs
      exact h.key_some j hj hs

theorem Inv_spawned (net : Nat → Nat → Attempt) (n : Nat) : Inv net n (spawned n) := by
  refine ⟨?_, ?_, ?_, ?_, ?_, ?_, ?_, ?_, ?_, ?_, ?_, rfl⟩
  · intro c hc
    simp [spawned] at hc
  · simp [spawned]
  · intro j _ hs
    simp [spawned, LanePc.sent] at hs
  · intro j _ sk hs
    simp [spawned] at hs
  · intro j _ hs
    simp [spawned, LanePc.stored] at hs
  · intro j _ k hk
    simp [spawned] at hk
  · intro j _ hs
    simp [spawned] at hs
  · rw [pending_spawned]
    rfl
  · intro k hk
    simp [spawned] at hk
  · intro j _ hs
    simp [spawned, LanePc.stored] at hs
  · intro c hc
    simp [spawned] at hc

theorem Inv_stepLane (net : Nat → Nat → Attempt) (n : Nat) (s : Sys) (i : Nat)
    (hi : i < n) (h : Inv net n s) : Inv net n (stepLane net n i s) := by
  have hs0 : ∀ l, setLane s i l = setLane { s with closed := s.closed } i l := fun _ => rfl
  unfold stepLane
  split
  · rename_i hpc
    have hold : ¬ (s.lanes i).pc.stored := by
      rw [hpc]
      simp [LanePc.stored]
    split
    · rename_i hnet
      rw [hs0]
      apply Inv_early net n s i _ _ h hold
      · simp [LanePc.stored]
      · intro sk hsk
        simp at hsk
      · intro j hj sk
        by_cases hjt : j = (s.lanes i).tries
        · subst hjt
          rw [hnet]
          simp
        · exact h.first i hi j (by simp at hj; omega) sk
      · intro hp
        simp at hp
      · exact h.closed_failed
    · rename_i hnet
      rw [hs0]
      apply Inv_early net n s i _ _ h hold
      · simp [LanePc.stored]
      · intro sk hsk
        simp at hsk
      · intro j hj sk
        exact h.first i hi j hj sk
      · intro _ hd
        exact hnet hd
      · exact h.closed_failed
  · rename_i hpc
    have hold : ¬ (s.lanes i).pc.stored := by
      rw [hpc]
      simp [LanePc.stored]
    split
    · rename_i sk hnet
      rw [hs0]
      apply Inv_early net n s i _ _ h hold
      · simp [LanePc.stored]
      · intro sk' hsk
        simp at hsk
        subst hsk
        exact hnet
      · intro j hj sk'
        exact h.first i hi j hj sk'
      · intro hp
        simp at hp
      · exact h.closed_failed
    · rename_i hnet
      apply Inv_early net n s i _ _ h hold
      · simp [LanePc.stored]
      · intro sk hsk
        simp at hsk
      · intro j hj sk
        by_cases hjt : j = (s.lanes i).tries
        · subst hjt
          exact hnet sk
        · exact h.first i hi j (by simp at hj; omega) sk
      · intro hp
        simp at hp
      · intro c hc
        rw [List.mem_append, List.mem_singleton] at hc
        rcases hc with hc | hc
        · exact h.closed_failed c hc
        · subst hc
          have hd := h.dialled i hi hpc
          cases hn : net i (s.lanes i).tries with
          | dialFail => exact absurd hn hd
          | prepareFail => rfl
          | ok sk => exact absurd hn (hnet sk)
  · rename_i sk hpc
    exact Inv_store net n s i sk hi h hpc
  · rename_i hpc
    split
    · exact Inv_send net n s i hi h hpc
    · exact h
  · rename_i hpc
    exact Inv_wgDone net n s i hi h hpc
  · exact h

theorem Inv_runLanes (net : Nat → Nat → Attempt) (n : Nat) (sched : List Nat) :
    Inv net n (runLanes net n sched) := by
  have hgen : ∀ (sched : List Nat) (s : Sys), Inv net n s →
      Inv net n (sched.foldl (step net n) s) := by
    intro sched
    induction sched with
    | nil => intro s hs; exact hs
    | cons i rest ih =>
      intro s hs
      apply ih
      unfold step
      split
      · rename_i hi
        exact Inv_stepLane net n s i hi hs
      · exact hs
  exact hgen sched _ (Inv_spawned net n)


theorem recvLoop_eq (n : Nat) (ch added : List Conn) :
    recvLoop n ch added = if n ≤ ch.length then some (added ++ ch.take n) else none := by
  induction n generalizing ch added with
  | zero => simp [recvLoop]
  | succ n ih =>
    cases ch with
    | nil => simp [recvLoop]
    | cons c ch =>
      rw [recvLoop, ih]
      simp

theorem Inv_first_attempt {net : Nat → Nat → Attempt} {n : Nat} {s : Sys} (h : Inv net n s)
    (i : Nat) (hi : i < n) (sk : Key) (hok : net i (s.lanes i).tries = .ok sk) :
    derivesKey net i (s.lanes i).tries sk :=
  ⟨hok, fun j hj sk' => h.first i hi j hj sk'⟩

/-- What the invariant gives once `wg.Wait()` has returned. -/
theorem Inv_after_wait {net : Nat → Nat → Attempt} {n : Nat} {s : Sys} (h : Inv net n s)
    (hwg : s.wg = 0) :
    (∀ j, j < n → (s.lanes j).pc = .finished)
      ∧ (s.connsCh.map Conn.lane).Perm (List.range n)
      ∧ s.connsCh.length = n
      ∧ (∀ c, c ∈ s.connsCh → ∃ sk, derivesKey net c.lane c.attempt sk)
      ∧ (∀ c, c ∈ s.connsCh → c ∉ s.closed) := by
  have hfin : ∀ j, j < n → (s.lanes j).pc = .finished := by
    apply pending_eq_zero
    have := h.wg_count
    omega
  have hperm : (s.connsCh.map Conn.lane).Perm (List.range n) := by
    rw [List.perm_ext_iff_of_nodup h.ch_nodup (List.nodup_range n)]
    intro a
    rw [List.mem_range]
    constructor
    · intro ha
      obtain ⟨c, hc, hca⟩ := List.mem_map.1 ha
      rw [← hca]
      exact (h.ch_lane c hc).1
    · intro ha
      exact List.mem_map.2 ⟨_, h.ch_has a ha (Or.inr (hfin a ha)), rfl⟩
  have hderive : ∀ c, c ∈ s.connsCh → ∃ sk, derivesKey net c.lane c.attempt sk := by
    intro c hc
    obtain ⟨a, b, d⟩ := h.ch_lane c hc
    obtain ⟨sk, hsk⟩ := h.live c.lane a (sent_stored b)
    refine ⟨sk, ?_⟩
    rw [d]
    exact Inv_first_attempt h c.lane a sk hsk
  refine ⟨hfin, hperm, ?_, hderive, ?_⟩
  · have := hperm.length_eq
    simpa using this
  · intro c hc hcl
    obtain ⟨sk, hsk, _⟩ := hderive c hc
    have := h.closed_failed c hcl
    rw [hsk] at this
    exact Attempt.noConfusion this

theorem Inv_key_derived {net : Nat → Nat → Attempt} {n : Nat} {s : Sys} (h : Inv net n s)
    (k : Key) (hk : s.sessionKey = some k) : ∃ i a, i < n ∧ derivesKey net i a k := by
  obtain ⟨i, hi, _, hn⟩ := h.key_from k hk
  exact ⟨i, _, hi, Inv_first_attempt h i hi k hn⟩

/-- The result of `makeSession` in terms of the state the lanes reach. -/
theorem makeSession_cases {Obfs : Type} (maxChanCap : Nat) (sta : State) (isAdmin : Bool)
    (quad : List Byte) (net : Nat → Nat → Attempt) (generateObfs : Byte → Key → Option Obfs)
    (sched : List Nat) (hN : 1 ≤ sta.NumConn) (hcap : sta.NumConn ≤ maxChanCap) :
    (makeSession maxChanCap sta isAdmin quad net generateObfs sched = .blocked
        ∧ (runLanes net sta.NumConn.toNat sched).wg ≠ 0)
      ∨ (∃ k, makeSession maxChanCap sta isAdmin quad net generateObfs sched = .fatal k
        ∧ (runLanes net sta.NumConn.toNat sched).wg = 0
        ∧ (runLanes net sta.NumConn.toNat sched).sessionKey = some k
        ∧ generateObfs sta.EncryptionMethod k = none)
      ∨ (∃ k obfs, makeSession maxChanCap sta isAdmin quad net generateObfs sched
          = .returned k ⟨if !isAdmin then bigEndianUint32 quad else sta.SessionID, obfs,
              (runLanes net sta.NumConn.toNat sched).connsCh⟩
        ∧ (runLanes net sta.NumConn.toNat sched).wg = 0
        ∧ (runLanes net sta.NumConn.toNat sched).sessionKey = some k
        ∧ generateObfs sta.EncryptionMethod k = some obfs) := by
  have hinv := Inv_runLanes net sta.NumConn.toNat sched
  have hneg : ¬ sta.NumConn < 0 := by omega
  have hbig : ¬ (maxChanCap : Int) < sta.NumConn := by omega
  by_cases hwg : (runLanes net sta.NumConn.toNat sched).wg = 0
  · obtain ⟨hfin, _, hlen, _, _⟩ := Inv_after_wait hinv hwg
    have h0 : 0 < sta.NumConn.toNat := by omega
    have hkey := hinv.key_some 0 h0 (Or.inr (Or.inr (hfin 0 h0)))
    obtain ⟨k, hk⟩ := Option.ne_none_iff_exists'.1 hkey
    right
    cases hg : generateObfs sta.EncryptionMethod k with
    | none =>
      left
      refine ⟨k, ?_, hwg, hk, hg⟩
      simp [makeSession, hneg, hbig, hwg, hk, hg]
    | some obfs =>
      right
      refine ⟨k, obfs, ?_, hwg, hk, hg⟩
      simp [makeSession, hneg, hbig, hwg, hk, hg, recvLoop_eq, hlen]
  · left
    refine ⟨?_, hwg⟩
    simp [makeSession, hneg, hbig, hwg]


theorem Inv_send_room {net : Nat → Nat → Attempt} {n : Nat} {s : Sys} (h : Inv net n s)
    (i : Nat) (hi : i < n) (hpc : ¬ (s.lanes i).pc.sent) : s.connsCh.length < n := by
  have hsub : s.connsCh.map Conn.lane ⊆ (List.range n).erase i := by
    intro a ha
    obtain ⟨c, hc, hca⟩ := List.mem_map.1 ha
    obtain ⟨h1, h2, _⟩ := h.ch_lane c hc
    rw [← hca]
    apply (List.Nodup.mem_erase_iff (List.nodup_range n)).2
    refine ⟨?_, List.mem_range.2 h1⟩
    intro hci
    rw [hci] at h2
    exact hpc h2
  have hle := (List.Nodup.subperm h.ch_nodup hsub).length_le
  rw [List.length_map, List.length_erase_of_mem (List.mem_range.2 hi), List.length_range] at hle
  omega

theorem stepLane_other (net : Nat → Nat → Attempt) (n : Nat) (s : Sys) (i j : Nat)
    (hji : j ≠ i) : (stepLane net n i s).lanes j = s.lanes j := by
  unfold stepLane
  split
  · split <;> exact setLane_lanes_ne _ _ _ _ hji
  · split <;> exact setLane_lanes_ne _ _ _ _ hji
  · exact setLane_lanes_ne _ _ _ _ hji
  · split
    · exact setLane_lanes_ne _ _ _ _ hji
    · rfl
  · exact setLane_lanes_ne _ _ _ _ hji
  · rfl

theorem stepLane_progress (net : Nat → Nat → Attempt) (n : Nat) (s : Sys) (i a : Nat)
    (sk : Key) (hi : i < n) (h : Inv net n s) (ha : net i a = .ok sk)
    (hpc : (s.lanes i).pc ≠ .finished) :
    stepsLeft a ((stepLane net n i s).lanes i) < stepsLeft a (s.lanes i) := by
  have hle : (s.lanes i).tries ≤ a := by
    by_contra hc
    exact h.first i hi a (by omega) sk ha
  unfold stepLane
  split
  · rename_i hpc'
    split
    · rename_i hnet
      have hne : (s.lanes i).tries ≠ a := by
        intro hc
        rw [hc, ha] at hnet
        exact Attempt.noConfusion hnet
      rw [setLane_lanes_same]
      simp only [stepsLeft, hpc']
      omega
    · rw [setLane_lanes_same]
      simp only [stepsLeft, hpc']
      omega
  · rename_i hpc'
    split
    · rw [setLane_lanes_same]
      simp only [stepsLeft, hpc']
      omega
    · rename_i hnet
      have hne : (s.lanes i).tries ≠ a := by
        intro hc
        rw [hc] at hnet
        exact hnet sk ha
      rw [setLane_lanes_same]
      simp only [stepsLeft, hpc']
      omega
  · rename_i sk' hpc'
    rw [setLane_lanes_same]
    simp only [stepsLeft, hpc']
    omega
  · rename_i hpc'
    have hroom := Inv_send_room h i hi (by rw [hpc']; simp [LanePc.sent])
    rw [if_pos hroom, setLane_lanes_same]
    simp only [stepsLeft, hpc']
    omega
  · rename_i hpc'
    rw [setLane_lanes_same]
    simp only [stepsLeft, hpc']
    omega
  · rename_i hpc'
    exact absurd hpc' hpc

theorem stepsLeft_zero (a : Nat) (l : Lane) (h : stepsLeft a l = 0) : l.pc = .finished := by
  cases hpc : l.pc <;> simp only [stepsLeft, hpc] at h <;> first | rfl | omega

theorem step_finished (net : Nat → Nat → Attempt) (n : Nat) (s : Sys) (i : Nat)
    (hpc : (s.lanes i).pc = .finished) (m : Nat) :
    (List.replicate m i).foldl (step net n) s = s := by
  induction m with
  | zero => rfl
  | succ m ih =>
    rw [List.replicate_succ, List.foldl_cons]
    have hsame : step net n s i = s := by
      unfold step stepLane
      rw [hpc]
      simp
    rw [hsame, ih]

/-- Scheduling lane `i` often enough lets it end, and leaves the other lanes alone. -/
theorem lane_runs_to_end (net : Nat → Nat → Attempt) (n : Nat) (i a : Nat) (sk : Key)
    (hi : i < n) (ha : net i a = .ok sk) (m : Nat) :
    ∀ s, Inv net n s → stepsLeft a (s.lanes i) ≤ m →
      (((List.replicate m i).foldl (step net n) s).lanes i).pc = .finished
        ∧ ∀ j, j ≠ i → ((List.replicate m i).foldl (step net n) s).lanes j = s.lanes j := by
  induction m with
  | zero =>
    intro s _ hm
    rw [List.replicate_zero, List.foldl_nil]
    exact ⟨stepsLeft_zero a _ (by omega), fun _ _ => rfl⟩
  | succ m ih =>
    intro s hs hm
    rw [List.replicate_succ, List.foldl_cons]
    have hstep : step net n s i = stepLane net n i s := by
      unfold step
      rw [if_pos hi]
    rw [hstep]
    have hinv := Inv_stepLane net n s i hi hs
    by_cases hpc : (s.lanes i).pc = .finished
    · have hsame : stepLane net n i s = s := by
        unfold stepLane
        rw [hpc]
      rw [hsame, step_finished net n s i hpc m]
      exact ⟨hpc, fun _ _ => rfl⟩
    · have hlt := stepLane_progress net n s i a sk hi hs ha hpc
      obtain ⟨h1, h2⟩ := ih (stepLane net n i s) hinv (by omega)
      refine ⟨h1, ?_⟩
      intro j hji
      rw [h2 j hji, stepLane_other net n s i j hji]

theorem runLanes_append (net : Nat → Nat → Attempt) (n : Nat) (s1 s2 : List Nat) :
    runLanes net n (s1 ++ s2) = s2.foldl (step net n) (runLanes net n s1) := by
  simp [runLanes, List.foldl_append]

/-- When every lane has a pass on which dial and handshake succeed, some schedule lets
all lanes end. -/
theorem exists_schedule_all_finished (net : Nat → Nat → Attempt) (n : Nat)
    (hnet : ∀ i, i < n → ∃ a sk, net i a = .ok sk) :
    ∃ sched, (runLanes net n sched).wg = 0 := by
  have hm : ∀ m, m ≤ n → ∃ sched, ∀ j, j < m →
      ((runLanes net n sched).lanes j).pc = .finished := by
    intro m
    induction m with
    | zero => exact fun _ => ⟨[], fun j hj => absurd hj (Nat.not_lt_zero j)⟩
    | succ m ih =>
      intro hmn
      obtain ⟨sched, hsched⟩ := ih (by omega)
      obtain ⟨a, sk, ha⟩ := hnet m (by omega)
      obtain ⟨h1, h2⟩ := lane_runs_to_end net n m a sk (by omega) ha _
        (runLanes net n sched) (Inv_runLanes net n sched) (le_refl _)
      refine ⟨sched ++ List.replicate (stepsLeft a ((runLanes net n sched).lanes m)) m, ?_⟩
      intro j hj
      rw [runLanes_append]
      by_cases hjm : j = m
      · subst hjm
        exact h1
      · rw [h2 j hjm]
        exact hsched j (by omega)
  obtain ⟨sched, hsched⟩ := hm n (le_refl n)
  refine ⟨sched, ?_⟩
  have hinv := Inv_runLanes net n sched
  rw [hinv.wg_count]
  have : pending (runLanes net n sched).lanes n = 0 := by
    unfold pending
    apply Finset.sum_eq_zero
    intro j hj
    rw [if_pos (hsched j (Finset.mem_range.1 hj))]
  rw [this]
  rfl


theorem pending_ne_zero (lanes : Nat → Lane) (n : Nat) (h : pending lanes n ≠ 0) :
    ∃ i, i < n ∧ (lanes i).pc ≠ .finished := by
  by_contra hc
  apply h
  unfold pending
  apply Finset.sum_eq_zero
  intro j hj
  by_cases hf : (lanes j).pc = .finished
  · rw [if_pos hf]
  · exact absurd ⟨j, Finset.mem_range.1 hj, hf⟩ hc

theorem makeSession_obfsKey {Obfs : Type} (maxChanCap : Nat) (sta : State) (isAdmin : Bool)
    (quad : List Byte) (net : Nat → Nat → Attempt) (generateObfs : Byte → Key → Option Obfs)
    (sched : List Nat) (k : Key)
    (hk : (makeSession maxChanCap sta isAdmin quad net generateObfs sched).obfsKey = some k) :
    0 ≤ sta.NumConn ∧ (runLanes net sta.NumConn.toNat sched).sessionKey = some k := by
  unfold makeSession at hk
  simp only at hk
  split at hk
  · simp [Outcome.obfsKey] at hk
  · rename_i hneg
    split at hk
    · simp [Outcome.obfsKey] at hk
    · split at hk
      · simp [Outcome.obfsKey] at hk
      · split at hk
        · simp [Outcome.obfsKey] at hk
        · rename_i sessionKey hsk
          refine ⟨by omega, ?_⟩
          rw [hsk]
          split at hk
          · simpa [Outcome.obfsKey] using hk
          · split at hk
            · simp [Outcome.obfsKey] at hk
            · simpa [Outcome.obfsKey] using hk

/-! ## Claims about `makeSession` -/

/-- C7 (as stated, refuted): three configurations in which `makeSession` neither keeps
waiting nor returns a session. With `sta.NumConn = 0` no lane is started, `wg.Wait()`
returns at once and the type assertion on the never stored `_sessionKey` panics. With
`sta.NumConn = 2^62` the call `make(chan net.Conn, sta.NumConn)` panics. With
`sta.NumConn = 1`, a lane that succeeds at once and `mux.GenerateObfs` returning an error,
`log.Fatal` ends the process. -/
theorem makeSession_third_outcome_counterexample :
    makeSession maxChanCap64 ⟨0, 0, 0⟩ false [0, 0, 0, 0]
        (fun _ _ => .ok (List.replicate 32 0)) (fun _ _ => some (0 : Nat)) [] = .panicked
      ∧ makeSession maxChanCap64 ⟨0, 4611686018427387904, 0⟩ false [0, 0, 0, 0]
        (fun _ _ => .ok (List.replicate 32 0)) (fun _ _ => some (0 : Nat)) [] = .panicked
      ∧ makeSession maxChanCap64 ⟨0, 1, 0⟩ false [0, 0, 0, 0]
        (fun _ _ => .ok (List.replicate 32 0)) (fun _ _ => (none : Option Nat))
        [0, 0, 0, 0, 0] = .fatal (List.replicate 32 0)
      ∧ ¬ (makeSession maxChanCap64 ⟨0, 0, 0⟩ false [0, 0, 0, 0]
            (fun _ _ => .ok (List.replicate 32 0)) (fun _ _ => some (0 : Nat)) [] = .blocked
          ∨ ∃ k sesh, makeSession maxChanCap64 ⟨0, 0, 0⟩ false [0, 0, 0, 0]
            (fun _ _ => .ok (List.replicate 32 0)) (fun _ _ => some (0 : Nat)) []
            = .returned k sesh)
      ∧ ¬ (makeSession maxChanCap64 ⟨0, 4611686018427387904, 0⟩ false [0, 0, 0, 0]
            (fun _ _ => .ok (List.replicate 32 0)) (fun _ _ => some (0 : Nat)) [] = .blocked
          ∨ ∃ k sesh, makeSession maxChanCap64 ⟨0, 4611686018427387904, 0⟩ false [0, 0, 0, 0]
            (fun _ _ => .ok (List.replicate 32 0)) (fun _ _ => some (0 : Nat)) []
            = .returned k sesh)
      ∧ ¬ (makeSession maxChanCap64 ⟨0, 1, 0⟩ false [0, 0, 0, 0]
            (fun _ _ => .ok (List.replicate 32 0)) (fun _ _ => (none : Option Nat))
            [0, 0, 0, 0, 0] = .blocked
          ∨ ∃ k sesh, makeSession maxChanCap64 ⟨0, 1, 0⟩ false [0, 0, 0, 0]
            (fun _ _ => .ok (List.replicate 32 0)) (fun _ _ => (none : Option Nat))
            [0, 0, 0, 0, 0] = .returned k sesh) := by
  have h1 : makeSession maxChanCap64 ⟨0, 0, 0⟩ false [0, 0, 0, 0]
      (fun _ _ => .ok (List.replicate 32 0)) (fun _ _ => some (0 : Nat)) [] = .panicked := by
    decide
  have h2 : makeSession maxChanCap64 ⟨0, 4611686018427387904, 0⟩ false [0, 0, 0, 0]
      (fun _ _ => .ok (List.replicate 32 0)) (fun _ _ => some (0 : Nat)) [] = .panicked := by
    decide
  have h3 : makeSession maxChanCap64 ⟨0, 1, 0⟩ false [0, 0, 0, 0]
      (fun _ _ => .ok (List.replicate 32 0)) (fun _ _ => (none : Option Nat))
      [0, 0, 0, 0, 0] = .fatal (List.replicate 32 0) := by
    decide
  refine ⟨h1, h2, h3, ?_, ?_, ?_⟩
  · rw [h1]
    intro hc
    rcases hc with hc | ⟨k, sesh, hc⟩
    · exact Outcome.noConfusion hc
    · exact Outcome.noConfusion hc
  · rw [h2]
    intro hc
    rcases hc with hc | ⟨k, sesh, hc⟩
    · exact Outcome.noConfusion hc
    · exact Outcome.noConfusion hc
  · rw [h3]
    intro hc
    rcases hc with hc | ⟨k, sesh, hc⟩
    · exact Outcome.noConfusion hc
    · exact Outcome.noConfusion hc

/-- C7 (amended): for a connection count `N ≥ 1` that `make(chan net.Conn, N)` accepts as
a capacity (`N ≤ maxChanCap`) and every pattern of dial and handshake failures, under
every schedule `makeSession` either has not returned and some lane has
not ended, or ends the process through `log.Fatal` because `mux.GenerateObfs` returned an
error, or returns a session on which `AddConnection` was called exactly `N` times, once
per lane, each time with the connection of the first pass of that lane on which dial and
handshake succeeded, never with a connection that was closed after a failed handshake.
When every lane has a pass that succeeds, some schedule lets `makeSession` get past
`wg.Wait()`; when some lane has none, `makeSession` has not returned under any schedule. -/
theorem makeSession_all_or_nothing {Obfs : Type} (maxChanCap : Nat) (sta : State)
    (isAdmin : Bool) (quad : List Byte) (net : Nat → Nat → Attempt)
    (generateObfs : Byte → Key → Option Obfs)
    (hN : 1 ≤ sta.NumConn) (hcap : sta.NumConn ≤ maxChanCap) :
    (∀ sched,
      (makeSession maxChanCap sta isAdmin quad net generateObfs sched = .blocked
          ∧ ∃ i, i < sta.NumConn.toNat
              ∧ ((runLanes net sta.NumConn.toNat sched).lanes i).pc ≠ .finished)
        ∨ (∃ k, makeSession maxChanCap sta isAdmin quad net generateObfs sched = .fatal k
              ∧ generateObfs sta.EncryptionMethod k = none)
        ∨ (∃ k sesh, makeSession maxChanCap sta isAdmin quad net generateObfs sched = .returned k sesh
              ∧ (sesh.conns.length : Int) = sta.NumConn
              ∧ (sesh.conns.map Conn.lane).Perm (List.range sta.NumConn.toNat)
              ∧ (∀ c, c ∈ sesh.conns → ∃ sk, derivesKey net c.lane c.attempt sk)
              ∧ (∀ c, c ∈ sesh.conns → c ∉ (runLanes net sta.NumConn.toNat sched).closed)))
      ∧ ((∀ i, i < sta.NumConn.toNat → ∃ a sk, net i a = .ok sk) →
          ∃ sched, makeSession maxChanCap sta isAdmin quad net generateObfs sched ≠ .blocked)
      ∧ ((∃ i, i < sta.NumConn.toNat ∧ ∀ a sk, net i a ≠ .ok sk) →
          ∀ sched, makeSession maxChanCap sta isAdmin quad net generateObfs sched = .blocked) := by
  refine ⟨?_, ?_, ?_⟩
  · intro sched
    have hinv := Inv_runLanes net sta.NumConn.toNat sched
    rcases makeSession_cases maxChanCap sta isAdmin quad net generateObfs sched hN hcap with
      ⟨h1, h2⟩ | ⟨k, h1, _, _, h4⟩ | ⟨k, obfs, h1, h2, _, _⟩
    · left
      refine ⟨h1, pending_ne_zero _ _ ?_⟩
      intro hp
      apply h2
      rw [hinv.wg_count, hp]
      rfl
    · right; left
      exact ⟨k, h1, h4⟩
    · right; right
      obtain ⟨_, hperm, hlen, hder, hcl⟩ := Inv_after_wait hinv h2
      refine ⟨k, _, h1, ?_, hperm, hder, hcl⟩
      show ((runLanes net sta.NumConn.toNat sched).connsCh.length : Int) = sta.NumConn
      rw [hlen]
      omega
  · intro hnet
    obtain ⟨sched, hsched⟩ := exists_schedule_all_finished net sta.NumConn.toNat hnet
    refine ⟨sched, ?_⟩
    rcases makeSession_cases maxChanCap sta isAdmin quad net generateObfs sched hN hcap with
      ⟨_, h2⟩ | ⟨k, h1, _⟩ | ⟨k, obfs, h1, _⟩
    · exact absurd hsched h2
    · rw [h1]
      intro hc
      exact Outcome.noConfusion hc
    · rw [h1]
      intro hc
      exact Outcome.noConfusion hc
  · intro hnever sched
    obtain ⟨i, hi, hfail⟩ := hnever
    have hinv := Inv_runLanes net sta.NumConn.toNat sched
    have hwg : (runLanes net sta.NumConn.toNat sched).wg ≠ 0 := by
      intro hwg
      obtain ⟨hfin, _⟩ := Inv_after_wait hinv hwg
      obtain ⟨sk, hsk⟩ := hinv.live i hi (Or.inr (Or.inr (hfin i hi)))
      exact hfail _ sk hsk
    rcases makeSession_cases maxChanCap sta isAdmin quad net generateObfs sched hN hcap with
      ⟨h1, _⟩ | ⟨k, _, h2, _⟩ | ⟨k, obfs, _, h2, _⟩
    · exact h1
    · exact absurd h2 hwg
    · exact absurd h2 hwg

theorem makeSession_all_or_nothing_witness :
    (1 : Int) ≤ (⟨0, 3, 1⟩ : State).NumConn
      ∧ (⟨0, 3, 1⟩ : State).NumConn ≤ maxChanCap64
      ∧ makeSession maxChanCap64 ⟨0, 3, 1⟩ false [1, 2, 3, 4]
          (fun i k => if k < i then .prepareFail else .ok [7])
          (fun _ _ => some (5 : Nat))
          [2, 1, 0, 2, 1, 0, 0, 0, 0, 1, 1, 1, 1, 1, 2, 2, 2, 2, 2, 2, 2]
        = .returned [7] ⟨16909060, 5, [⟨0, 0⟩, ⟨1, 1⟩, ⟨2, 2⟩]⟩
      ∧ ((∀ sched,
        (makeSession maxChanCap64 ⟨0, 3, 1⟩ false [1, 2, 3, 4]
              (fun i k => if k < i then .prepareFail else .ok [7])
              (fun _ _ => some (5 : Nat)) sched = .blocked
            ∧ ∃ i, i < (3 : Int).toNat
              ∧ ((runLanes (fun i k => if k < i then .prepareFail else .ok [7])
                    (3 : Int).toNat sched).lanes i).pc ≠ .finished)
          ∨ (∃ k, makeSession maxChanCap64 ⟨0, 3, 1⟩ false [1, 2, 3, 4]
              (fun i k => if k < i then .prepareFail else .ok [7])
              (fun _ _ => some (5 : Nat)) sched = .fatal k
              ∧ (fun (_ : Byte) (_ : Key) => some (5 : Nat)) 1 k = none)
          ∨ (∃ k sesh, makeSession maxChanCap64 ⟨0, 3, 1⟩ false [1, 2, 3, 4]
              (fun i k => if k < i then .prepareFail else .ok [7])
              (fun _ _ => some (5 : Nat)) sched = .returned k sesh
              ∧ (sesh.conns.length : Int) = 3
              ∧ (sesh.conns.map Conn.lane).Perm (List.range (3 : Int).toNat)
              ∧ (∀ c, c ∈ sesh.conns → ∃ sk,
                  derivesKey (fun i k => if k < i then .prepareFail else .ok [7])
                    c.lane c.attempt sk)
              ∧ (∀ c, c ∈ sesh.conns →
                  c ∉ (runLanes (fun i k => if k < i then .prepareFail else .ok [7])
                    (3 : Int).toNat sched).closed)))
        ∧ ((∀ i, i < (3 : Int).toNat →
              ∃ a sk, (fun i k => if k < i then Attempt.prepareFail else .ok [7]) i a
                = .ok sk) →
            ∃ sched, makeSession maxChanCap64 ⟨0, 3, 1⟩ false [1, 2, 3, 4]
              (fun i k => if k < i then .prepareFail else .ok [7])
              (fun _ _ => some (5 : Nat)) sched ≠ .blocked)
        ∧ ((∃ i, i < (3 : Int).toNat
              ∧ ∀ a sk, (fun i k => if k < i then Attempt.prepareFail else .ok [7]) i a
                ≠ .ok sk) →
            ∀ sched, makeSession maxChanCap64 ⟨0, 3, 1⟩ false [1, 2, 3, 4]
              (fun i k => if k < i then .prepareFail else .ok [7])
              (fun _ _ => some (5 : Nat)) sched = .blocked)) :=
  ⟨by decide, by decide, by decide,
    makeSession_all_or_nothing maxChanCap64 ⟨0, 3, 1⟩ false [1, 2, 3, 4]
      (fun i k => if k < i then .prepareFail else .ok [7]) (fun _ _ => some (5 : Nat))
      (by decide) (by decide)⟩

/-- C8 (as stated, refuted): two lanes derive the keys `00..00` and `01..01`; when lane 0
completes first the key passed to `mux.GenerateObfs` is the one of lane 1, when lane 1
completes first it is the one of lane 0. -/
theorem makeSession_key_order_counterexample :
    makeSession maxChanCap64 ⟨0, 2, 1⟩ true [] (fun i _ => .ok (List.replicate 32 i))
        (fun _ _ => some (0 : Nat)) [0, 0, 0, 0, 0, 1, 1, 1, 1, 1]
        = .returned (List.replicate 32 1) ⟨0, 0, [⟨0, 0⟩, ⟨1, 0⟩]⟩
      ∧ makeSession maxChanCap64 ⟨0, 2, 1⟩ true [] (fun i _ => .ok (List.replicate 32 i))
        (fun _ _ => some (0 : Nat)) [1, 1, 1, 1, 1, 0, 0, 0, 0, 0]
        = .returned (List.replicate 32 0) ⟨0, 0, [⟨1, 0⟩, ⟨0, 0⟩]⟩
      ∧ (List.replicate 32 1 : Key) ≠ List.replicate 32 0 := by
  decide

/-- C8 (amended): under every schedule the key `makeSession` passes to
`mux.GenerateObfs` is the key derived by one of the `N` lanes, namely the key of the
`_sessionKey.Store` that ran last; when all lanes derive the same key, the key passed is
the same under every two schedules. -/
theorem makeSession_key_from_a_lane {Obfs : Type} (maxChanCap : Nat) (sta : State)
    (isAdmin : Bool) (quad : List Byte) (net : Nat → Nat → Attempt)
    (generateObfs : Byte → Key → Option Obfs) :
    (∀ sched k, (makeSession maxChanCap sta isAdmin quad net generateObfs sched).obfsKey = some k →
        (∃ i a : Nat, (i : Int) < sta.NumConn ∧ derivesKey net i a k)
          ∧ (runLanes net sta.NumConn.toNat sched).storeLog.getLast?.map Prod.snd = some k)
      ∧ ((∀ (i j a b : Nat) (ki kj : Key), (i : Int) < sta.NumConn → (j : Int) < sta.NumConn →
            derivesKey net i a ki → derivesKey net j b kj → ki = kj) →
          ∀ sched1 sched2 k1 k2,
            (makeSession maxChanCap sta isAdmin quad net generateObfs sched1).obfsKey = some k1 →
            (makeSession maxChanCap sta isAdmin quad net generateObfs sched2).obfsKey = some k2 →
            k1 = k2) := by
  have h1 : ∀ sched k,
      (makeSession maxChanCap sta isAdmin quad net generateObfs sched).obfsKey = some k →
      (∃ i a : Nat, (i : Int) < sta.NumConn ∧ derivesKey net i a k)
        ∧ (runLanes net sta.NumConn.toNat sched).storeLog.getLast?.map Prod.snd = some k := by
    intro sched k hk
    obtain ⟨hN, hkey⟩ := makeSession_obfsKey maxChanCap sta isAdmin quad net generateObfs sched k hk
    have hinv := Inv_runLanes net sta.NumConn.toNat sched
    obtain ⟨i, a, hi, hd⟩ := Inv_key_derived hinv k hkey
    refine ⟨⟨i, a, by omega, hd⟩, ?_⟩
    rw [← hinv.key_last, hkey]
  refine ⟨h1, ?_⟩
  intro hsame sched1 sched2 k1 k2 hk1 hk2
  obtain ⟨⟨i, a, hi, hd1⟩, _⟩ := h1 sched1 k1 hk1
  obtain ⟨⟨j, b, hj, hd2⟩, _⟩ := h1 sched2 k2 hk2
  exact hsame i j a b k1 k2 hi hj hd1 hd2

theorem makeSession_key_from_a_lane_witness :
    (makeSession maxChanCap64 ⟨0, 2, 1⟩ true [] (fun i _ => .ok (List.replicate 32 i))
        (fun _ _ => some (0 : Nat)) [0, 0, 0, 0, 0, 1, 1, 1, 1, 1]).obfsKey
        = some (List.replicate 32 1)
      ∧ (∃ i a : Nat, (i : Int) < (⟨0, 2, 1⟩ : State).NumConn
          ∧ derivesKey (fun i _ => .ok (List.replicate 32 i)) i a (List.replicate 32 1))
      ∧ (runLanes (fun i _ => .ok (List.replicate 32 i)) (⟨0, 2, 1⟩ : State).NumConn.toNat
          [0, 0, 0, 0, 0, 1, 1, 1, 1, 1]).storeLog.getLast?.map Prod.snd
          = some (List.replicate 32 1) :=
  ⟨by decide,
    (makeSession_key_from_a_lane maxChanCap64 ⟨0, 2, 1⟩ true []
      (fun i _ => .ok (List.replicate 32 i)) (fun _ _ => some (0 : Nat))).1
      [0, 0, 0, 0, 0, 1, 1, 1, 1, 1] (List.replicate 32 1) (by decide)⟩

/-! ## Claims about the connection handler -/

/-- C9: when the initial `io.ReadAtLeast` fails (EOF with zero bytes included) the
handler only closes the local connection: it performs no operation on the session or on a
stream. When the read returns `i` bytes and `OpenStream` succeeds, the first write to the
stream carries exactly `data[:i]`, and no relay direction is started before it. -/
theorem handler_initial_read (env : HandlerEnv) :
    (env.readErr ≠ none →
        handler env = [.readAtLeast, .localClose]
          ∧ ∀ e, e ∈ handler env → e.onSession = false)
      ∧ (env.readErr = none → env.openErr = none →
          ∃ rest, handler env
              = [.readAtLeast, .openStream, .streamWrite (env.data.take env.readN)] ++ rest
            ∧ (∀ e, e ∈ [Event.readAtLeast, Event.openStream] →
                e.isRelay = false ∧ ∀ bytes, e ≠ .streamWrite bytes)
            ∧ (env.writeErr = none → rest = [.goPipeLocalToStream, .pipeStreamToLocal])
            ∧ (env.writeErr ≠ none → rest = [.localClose, .streamClose])) := by
  constructor
  · intro hr
    obtain ⟨e, he⟩ := Option.ne_none_iff_exists'.1 hr
    have h : handler env = [.readAtLeast, .localClose] := by
      simp [handler, he]
    rw [h]
    refine ⟨rfl, ?_⟩
    intro ev hev
    simp at hev
    rcases hev with hev | hev <;> subst hev <;> rfl
  · intro hr ho
    cases hw : env.writeErr with
    | none =>
      refine ⟨[.goPipeLocalToStream, .pipeStreamToLocal], ?_, ?_, fun _ => rfl, ?_⟩
      · simp [handler, hr, ho, hw]
      · intro ev hev
        simp at hev
        rcases hev with hev | hev <;> subst hev <;> exact ⟨rfl, fun _ h => Event.noConfusion h⟩
      · intro hc
        exact absurd rfl hc
    | some e =>
      refine ⟨[.localClose, .streamClose], ?_, ?_, ?_, fun _ => rfl⟩
      · simp [handler, hr, ho, hw]
      · intro ev hev
        simp at hev
        rcases hev with hev | hev <;> subst hev <;> exact ⟨rfl, fun _ h => Event.noConfusion h⟩
      · intro hc
        exact Option.noConfusion hc

theorem handler_initial_read_witness :
    (handler ⟨0, some .EOF, List.replicate 10240 0, none, none⟩
          = [.readAtLeast, .localClose]
        ∧ ∀ e, e ∈ handler ⟨0, some .EOF, List.replicate 10240 0, none, none⟩ →
            e.onSession = false)
      ∧ ∃ rest, handler ⟨5, none, [71, 69, 84, 32, 47, 0, 0, 0], none, none⟩
            = [.readAtLeast, .openStream,
                .streamWrite ((⟨5, none, [71, 69, 84, 32, 47, 0, 0, 0], none, none⟩ :
                  HandlerEnv).data.take
                  (⟨5, none, [71, 69, 84, 32, 47, 0, 0, 0], none, none⟩ : HandlerEnv).readN)]
              ++ rest
          ∧ (∀ e, e ∈ [Event.readAtLeast, Event.openStream] →
              e.isRelay = false ∧ ∀ bytes, e ≠ .streamWrite bytes)
          ∧ ((⟨5, none, [71, 69, 84, 32, 47, 0, 0, 0], none, none⟩ : HandlerEnv).writeErr
              = none → rest = [.goPipeLocalToStream, .pipeStreamToLocal])
          ∧ ((⟨5, none, [71, 69, 84, 32, 47, 0, 0, 0], none, none⟩ : HandlerEnv).writeErr
              ≠ none → rest = [.localClose, .streamClose]) :=
  ⟨(handler_initial_read ⟨0, some .EOF, List.replicate 10240 0, none, none⟩).1 (by decide),
    (handler_initial_read ⟨5, none, [71, 69, 84, 32, 47, 0, 0, 0], none, none⟩).2 rfl rfl⟩

end Cloak
